import Mathlib

/-!
# media-roller: process lifecycle, periodic updater and static asset router

A shallow embedding of `src/main.go` (package `main` of media-roller) and proofs about it.

* Part 1 embeds `fileServer` (lines 110-135) together with the parts of the Go
  standard library and of the chi router it calls.
* Part 2 embeds `startYtDlpUpdater` (lines 87-108) as a step machine.
* Part 3 embeds the three goroutines of `main` (lines 45-85) as an interleaving
  transition system.

Strings are Lean `String`s; the string algorithms work on the character list so that
they are structurally recursive and evaluate inside the kernel.
-/

namespace MediaRoller

/-! ## Part 0: the string and path functions of the Go standard library used by main.go -/

/-- Go `strings.ContainsAny(s, chars)`: some character of `s` occurs in `chars`. -/
def containsAny (s chars : String) : Bool :=
  s.data.any (fun c => chars.data.contains c)

/-- Go `strings.HasPrefix(s, p)`. -/
def hasPrefix (s p : String) : Bool := p.data.isPrefixOf s.data

/-- Go `strings.HasSuffix(s, p)`. -/
def hasSuffix (s p : String) : Bool := p.data.reverse.isPrefixOf s.data.reverse

/-- Go `strings.TrimPrefix(s, p)`: `s` without the leading `p`, or `s` itself. -/
def trimPrefix (s p : String) : String :=
  if hasPrefix s p then String.mk (s.data.drop p.data.length) else s

/-- Go `strings.TrimSuffix(s, p)`: `s` without the trailing `p`, or `s` itself. -/
def trimSuffix (s p : String) : String :=
  if hasSuffix s p then String.mk (s.data.take (s.data.length - p.data.length)) else s

/-- The worker of `strings.Replace(s, old, new, 1)` for a non-empty `old`: the first
occurrence of `old` in `s`, scanning from the left, is replaced by `new`. -/
def replaceFirstChars (old new : List Char) : List Char → List Char
  | [] => []
  | c :: cs =>
    if old.isPrefixOf (c :: cs) then new ++ (c :: cs).drop old.length
    else c :: replaceFirstChars old new cs

/-- Go `strings.Replace(s, old, new, 1)`. For an empty `old` Go inserts `new` at the start. -/
def replaceFirst (s old new : String) : String :=
  if old.data = [] then new ++ s else String.mk (replaceFirstChars old.data new.data s.data)

/-- Splits a character list at every character satisfying `sep` (empty pieces kept). -/
def splitAt (sep : Char → Bool) : List Char → List (List Char)
  | [] => [[]]
  | c :: cs =>
    match splitAt sep cs with
    | [] => [[]]
    | seg :: rest => if sep c then [] :: seg :: rest else (c :: seg) :: rest

/-- The lexical processing of Go `path.Clean`: empty and `.` elements are dropped, `..`
removes the element before it, a `..` that would climb above the root of a rooted path is
dropped, and a `..` that cannot be resolved in a relative path is kept. `acc` is the stack of
elements kept so far, last one first. -/
def cleanSegs (rooted : Bool) : List (List Char) → List (List Char) → List (List Char)
  | [], acc => acc.reverse
  | seg :: rest, acc =>
    if seg = [] ∨ seg = ['.'] then cleanSegs rooted rest acc
    else if seg = ['.', '.'] then
      match acc with
      | [] => if rooted then cleanSegs rooted rest [] else cleanSegs rooted rest [seg]
      | top :: acc' =>
        if top = ['.', '.'] then cleanSegs rooted rest (seg :: top :: acc')
        else cleanSegs rooted rest acc'
    else cleanSegs rooted rest (seg :: acc)

/-- Joins path elements with single slashes. -/
def joinSlash : List (List Char) → List Char
  | [] => []
  | [seg] => seg
  | seg :: rest => seg ++ '/' :: joinSlash rest

/-- Go `path.Clean` (and `filepath.Clean` on a slash-separated system). -/
def pathClean (p : String) : String :=
  let rooted := p.data.head? = some '/'
  let body := joinSlash (cleanSegs rooted (splitAt (fun c => c = '/') p.data) [])
  if rooted then String.mk ('/' :: body)
  else if body = [] then "." else String.mk body

/-- Go `path.Join(a, b)` (and `filepath.Join` on a slash-separated system) for two elements. -/
def pathJoin (a b : String) : String :=
  if a = "" ∧ b = "" then ""
  else if a = "" then pathClean b
  else pathClean (a ++ "/" ++ b)

/-- The elements of a directory part put together again: each one followed by a slash. -/
def dirOf (segs : List (List Char)) : List Char :=
  segs.foldr (fun seg acc => seg ++ '/' :: acc) []

/-- Go `filepath.Split`: the path is cut right after its last slash. -/
def pathSplit (p : String) : String × String :=
  let segs := splitAt (fun c => c = '/') p.data
  match segs.reverse with
  | [] => ("", p)
  | file :: revDirs => (String.mk (dirOf revDirs.reverse), String.mk file)

/-- Drops the trailing slashes of a reversed path. -/
def dropSlashes : List Char → List Char
  | [] => []
  | c :: cs => if c = '/' then dropSlashes cs else c :: cs

/-- Go `path.Base`: the last element of the path, trailing slashes removed first. -/
def pathBase (p : String) : String :=
  if p = "" then "."
  else
    let trimmed := (dropSlashes p.data.reverse).reverse
    match (splitAt (fun c => c = '/') trimmed).getLast? with
    | none => "/"
    | some seg => if seg = [] then "/" else String.mk seg

/-- Go `net/http.containsDotDot`: some element of `v`, split at `/` and `\`, is `..`. -/
def containsDotDot (v : String) : Bool :=
  (splitAt (fun c => c = '/' ∨ c = '\\') v.data).any (fun seg => seg = ['.', '.'])

/-- The elements `segs` are in cleaned form when they follow the stack `acc` (last element
first): none is empty or `.`, and a `..` occurs only in a relative path with nothing but
`..` before it. On such elements `cleanSegs` changes nothing. -/
def Cleaned (rooted : Bool) : List (List Char) → List (List Char) → Prop
  | _, [] => True
  | acc, seg :: rest =>
    (seg ≠ [] ∧ seg ≠ ['.'] ∧
      (seg = ['.', '.'] → rooted = false ∧ ∀ t ∈ acc, t = ['.', '.'])) ∧
    Cleaned rooted (seg :: acc) rest

/-! ## Part 1: the static asset router (`fileServer`) -/

/-- The error classes of the operating system calls that main.go and net/http tell apart. -/
inductive FsErr where
  | notExist
  | permission
  | notDir
  | other
  deriving DecidableEq, Repr

/-- What a successful `os.Stat` finds, and what `os.Open` followed by `f.Stat()` finds.
File contents are a sequence of bytes, written one character per byte. `modTime` is the
modification time in seconds since the Unix epoch; the value 0 is the epoch itself, which
net/http treats like an unknown time. -/
inductive Node where
  | file (content : String) (modTime : Nat)
  | dir (modTime : Nat)
  deriving DecidableEq, Repr

/-- Go `FileInfo.IsDir()`. -/
def Node.isDir : Node → Bool
  | .file _ _ => false
  | .dir _ => true

deriving instance DecidableEq for Except

/-- The entity tags of an `If-Match` or `If-None-Match` header, as far as net/http looks at
them here: the file handlers set no `ETag` on the response, so no listed tag ever matches,
and what decides is whether the scan of the list reaches a `*`. -/
inductive ETagList where
  | star
  | tags
  deriving DecidableEq, Repr

/-- The value of an `If-Range` header: an entity tag, an HTTP date (in seconds since the
epoch), or something that is neither. -/
inductive IfRangeValue where
  | etag
  | date (t : Nat)
  | other
  deriving DecidableEq, Repr

/-- One element of a `Range: bytes=...` header: `start-`, `start-last`, or the suffix form
`-n`. -/
inductive ByteRange where
  | fromTo (start : Nat) (last : Option Nat)
  | suffix (n : Nat)
  deriving DecidableEq, Repr

/-- A `Range` header: one that `parseRange` cannot read, or its list of elements. -/
inductive RangeHeader where
  | malformed
  | ranges (rs : List ByteRange)
  deriving DecidableEq, Repr

/-- The fields of Go `http.Request` that the handlers of the static routes read. The method
is GET, the only one the routes are registered for. A header field is `none` when the
header is absent or empty; a date header is also `none` when it does not parse, which
net/http treats like an absent one. -/
structure Request where
  /-- `r.RequestURI`: the request target as sent by the client, query string included. -/
  RequestURI : String
  /-- `r.URL.Path`: the decoded path, without the query string. -/
  Path : String
  /-- `r.URL.RawPath`: the escaped path, set only when it differs from the default escaping. -/
  RawPath : String
  /-- `r.URL.RawQuery`: the query string without the question mark. -/
  RawQuery : String
  /-- The header `If-Match`. -/
  IfMatch : Option ETagList
  /-- The header `If-Unmodified-Since`, in seconds since the epoch. -/
  IfUnmodifiedSince : Option Nat
  /-- The header `If-None-Match`. -/
  IfNoneMatch : Option ETagList
  /-- The header `If-Modified-Since`, in seconds since the epoch. -/
  IfModifiedSince : Option Nat
  /-- The header `Range`. -/
  Range : Option RangeHeader
  /-- The header `If-Range`. -/
  IfRange : Option IfRangeValue
  deriving DecidableEq, Repr

/-- The request carries none of the conditional headers and no `Range` header. -/
def Request.unconditional (r : Request) : Bool :=
  r.IfMatch.isNone && r.IfUnmodifiedSince.isNone && r.IfNoneMatch.isNone &&
    r.IfModifiedSince.isNone && r.Range.isNone

/-- What a response carries besides its status. -/
inductive Body where
  /-- The bytes of a served file, or of the one requested range of it. -/
  | content (data : String)
  /-- The parts of a multipart answer to several ranges: first byte and bytes of each. -/
  | parts (ranges : List (Nat × String))
  /-- The text of `http.Error`. -/
  | text (message : String)
  /-- The generated listing of the directory opened under the given name. -/
  | listing (name : String)
  /-- The short HTML note of `http.Redirect` that links to the target. -/
  | redirectNote (target : String)
  /-- No body. -/
  | empty
  deriving DecidableEq, Repr

/-- The observable part of an HTTP response. -/
structure Response where
  status : Nat
  location : Option String
  body : Body
  deriving DecidableEq, Repr

/-- The process environment that `fileServer` and the handlers read. -/
structure Env where
  /-- Go `filepath.Abs`, which consults the working directory; the code discards its error. -/
  Abs : String → String
  /-- Go `os.Stat`. -/
  Stat : String → Except FsErr Node
  /-- Go `os.Open` followed by `f.Stat()` on the opened file. -/
  Open : String → Except FsErr Node
  /-- Whether `url.Parse` reads a redirect target as a URL without scheme and host, for the
  targets that `simpleLocalPath` does not settle. -/
  UrlLocal : String → Bool
  /-- The answers of the handlers of package `media`, by name. -/
  Media : String → Request → Response

/-- Go `os.IsNotExist(err)` applied to the error of a stat result (false for a nil error). -/
def isNotExist : Except FsErr Node → Bool
  | .error .notExist => true
  | _ => false

/-- The file-serving handlers of net/http that line 120 composes, as data. -/
inductive FileHandler where
  /-- The value of `http.FileServer(http.Dir(root))`. -/
  | fileServer (root : String)
  /-- The value of `http.StripPrefix(pre, h)`. -/
  | stripPrefix (pre : String) (h : FileHandler)
  deriving DecidableEq, Repr

/-- The handlers that end up in the route table, as data. -/
inductive Handler where
  /-- A handler supplied by package `media`, named. -/
  | media (name : String)
  /-- The value of `http.RedirectHandler(url, code).ServeHTTP`: it answers every request
  with `http.Redirect(w, r, url, code)`. -/
  | redirect (url : String) (code : Nat)
  /-- The closure of lines 127-134, with the variables it captures: `public` (as it is after
  line 124), `root` and `fs`. -/
  | spaFallback (pub root : String) (fs : FileHandler)
  deriving DecidableEq, Repr

/-- One entry of the chi route table. -/
structure Route where
  method : String
  pattern : String
  handler : Handler
  deriving DecidableEq, Repr

/-- The chi route table: the registered endpoints, in registration order. -/
abbrev Router := List Route

/-- The values `fileServer` can panic with. -/
inductive PanicValue where
  /-- An explicit `panic(msg)` of main.go. -/
  | msg (text : String)
  /-- The Go runtime error of the index expression `s[i]` with `i` outside `0 ≤ i < len`. -/
  | indexOutOfRange (index : Int) (len : Nat)
  /-- The panic of chi `Mux.handle` for a pattern that is empty or does not begin with a slash. -/
  | chiPatternMustBeginWithSlash (pattern : String)
  deriving DecidableEq, Repr

/-- The route table with the endpoint of a method and pattern set to a handler: an earlier
endpoint of the same method and pattern is replaced. -/
def Router.set (r : Router) (method pattern : String) (h : Handler) : Router :=
  r.filter (fun rt => !(rt.method = method ∧ rt.pattern = pattern)) ++ [⟨method, pattern, h⟩]

/-- chi `Router.Get(pattern, h)`: `Mux.handle` panics unless the pattern begins with a slash;
otherwise the GET endpoint of that pattern is set. The further panics of chi pattern parsing
concern `{`, `}` and a `*` that is not last, which `fileServer` has excluded before it
registers anything. -/
def Router.Get (r : Router) (pattern : String) (h : Handler) : Except PanicValue Router :=
  if pattern.data.head? = some '/' then .ok (r.set "GET" pattern h)
  else .error (.chiPatternMustBeginWithSlash pattern)

/-- The router after `fileServer` returned or panicked (chi routers are mutated in place, so
what was registered before a panic stays), and the panic value if it panicked. -/
structure Built where
  router : Router
  panicked : Option PanicValue
  deriving DecidableEq, Repr

/-- Go `http.StatusMovedPermanently`. -/
def StatusMovedPermanently : Nat := 301

/-- Line 127: the wildcard route is registered under `pub ++ "*"`. -/
def registerWildcard (r : Router) (pub root : String) (fs : FileHandler) : Built :=
  match r.Get (pub ++ "*") (.spaFallback pub root fs) with
  | .error p => ⟨r, some p⟩
  | .ok r2 => ⟨r2, none⟩

/-- `fileServer(r, public, static)`, lines 110-135 of main.go. -/
def fileServer (env : Env) (r : Router) (public static : String) : Built :=
  if containsAny public "{}*" then
    ⟨r, some (.msg "FileServer does not permit URL parameters.")⟩
  else
    let root := env.Abs static
    if isNotExist (env.Stat root) then
      ⟨r, some (.msg "Static Documents Directory Not Found")⟩
    else
      let fs := FileHandler.stripPrefix public (.fileServer root)
      if public ≠ "/" then
        -- public[len(public)-1]
        match public.data.getLast? with
        | none => ⟨r, some (.indexOutOfRange (-1) 0)⟩
        | some c =>
          if c ≠ '/' then
            match r.Get public (.redirect (public ++ "/") StatusMovedPermanently) with
            | .error p => ⟨r, some p⟩
            | .ok r1 => registerWildcard r1 (public ++ "/") root fs
          else registerWildcard r public root fs
      else registerWildcard r public root fs

/-! ### Serving a request -/

/-- Go `http.Error(w, msg, code)`. -/
def httpError (message : String) (code : Nat) : Response :=
  ⟨code, none, .text (message ++ "\n")⟩

/-- Go `http.NotFound`. -/
def httpNotFound : Response := httpError "404 page not found" 404

/-- Go `net/http.toHTTPError` followed by `serveError`. -/
def serveOpenError : FsErr → Response
  | .notExist => httpError "404 page not found" 404
  | .permission => httpError "403 Forbidden" 403
  | _ => httpError "500 Internal Server Error" 500

/-- Go `net/http.localRedirect`: a 301 whose Location is `newPath` plus the query string. -/
def localRedirect (r : Request) (newPath : String) : Response :=
  ⟨StatusMovedPermanently,
   some (if r.RawQuery ≠ "" then newPath ++ "?" ++ r.RawQuery else newPath), .empty⟩

/-- The loop of Go `net/http.mapOpenError`: `done` are the path elements already passed, last
one first; the first prefix of the path that is a regular file turns the error into
`fs.ErrNotExist`, a prefix that cannot be examined keeps the original error. -/
def mapOpenErrorLoop (env : Env) (original : FsErr) :
    List (List Char) → List (List Char) → FsErr
  | _, [] => original
  | done, part :: rest =>
    if part = [] then mapOpenErrorLoop env original (part :: done) rest
    else
      match env.Stat (String.mk (joinSlash (part :: done).reverse)) with
      | .error _ => original
      | .ok (.file _ _) => .notExist
      | .ok (.dir _) => mapOpenErrorLoop env original (part :: done) rest

/-- Go `net/http.mapOpenError`. -/
def mapOpenError (env : Env) (original : FsErr) (name : String) : FsErr :=
  if original = .notExist ∨ original = .permission then original
  else mapOpenErrorLoop env original [] (splitAt (fun c => c = '/') name.data)

/-- The file name that `http.Dir(dir).Open(name)` passes to `os.Open`. -/
def dirFullName (dir name : String) : String :=
  let p := String.mk ((pathClean ("/" ++ name)).data.drop 1)
  pathJoin (if dir = "" then "." else dir) (if p = "" then "." else p)

/-- Go `http.Dir(dir).Open(name)`, followed by the `f.Stat()` of its caller. -/
def dirOpen (env : Env) (dir name : String) : Except FsErr Node :=
  match env.Open (dirFullName dir name) with
  | .ok n => .ok n
  | .error e => .error (mapOpenError env e (dirFullName dir name))

/-- The last byte of the string is a slash. -/
def endsWithSlash (s : String) : Bool := s.data.getLast? = some '/'

/-- The three results of the precondition checks of net/http. -/
inductive CondResult where
  | condNone
  | condTrue
  | condFalse
  deriving DecidableEq, Repr

/-- Go `net/http.isZeroTime`. -/
def isZeroTime (t : Nat) : Bool := t = 0

/-- Go `net/http.checkIfMatch`, on a response without `ETag`. -/
def checkIfMatch (r : Request) : CondResult :=
  match r.IfMatch with
  | none => .condNone
  | some .star => .condTrue
  | some .tags => .condFalse

/-- Go `net/http.checkIfUnmodifiedSince`. -/
def checkIfUnmodifiedSince (r : Request) (modtime : Nat) : CondResult :=
  match r.IfUnmodifiedSince with
  | none => .condNone
  | some t =>
    if isZeroTime modtime then .condNone
    else if modtime ≤ t then .condTrue else .condFalse

/-- Go `net/http.checkIfNoneMatch`, on a response without `ETag`. -/
def checkIfNoneMatch (r : Request) : CondResult :=
  match r.IfNoneMatch with
  | none => .condNone
  | some .star => .condFalse
  | some .tags => .condTrue

/-- Go `net/http.checkIfModifiedSince`, for a GET request. -/
def checkIfModifiedSince (r : Request) (modtime : Nat) : CondResult :=
  match r.IfModifiedSince with
  | none => .condNone
  | some t =>
    if isZeroTime modtime then .condNone
    else if modtime ≤ t then .condFalse else .condTrue

/-- Go `net/http.checkIfRange`, for a GET request and a response without `ETag`. -/
def checkIfRange (r : Request) (modtime : Nat) : CondResult :=
  match r.IfRange with
  | none => .condNone
  | some .etag => .condFalse
  | some (.date t) =>
    if isZeroTime modtime then .condFalse
    else if t = modtime then .condTrue else .condFalse
  | some .other => .condFalse

/-- Go `net/http.writeNotModified`. -/
def notModified : Response := ⟨304, none, .empty⟩

/-- The last step of `checkPreconditions`: the `Range` header counts unless `If-Range`
fails. -/
def effectiveRange (r : Request) (modtime : Nat) : Option RangeHeader :=
  if r.Range.isSome ∧ checkIfRange r modtime = .condFalse then none else r.Range

/-- Go `net/http.checkPreconditions` for a GET request: the response when the request is
settled by its preconditions, else the `Range` header to serve. -/
def checkPreconditions (r : Request) (modtime : Nat) : Except Response (Option RangeHeader) :=
  let ch :=
    match checkIfMatch r with
    | .condNone => checkIfUnmodifiedSince r modtime
    | c => c
  if ch = .condFalse then .error ⟨412, none, .empty⟩
  else
    match checkIfNoneMatch r with
    | .condFalse => .error notModified
    | .condNone =>
      if checkIfModifiedSince r modtime = .condFalse then .error notModified
      else .ok (effectiveRange r modtime)
    | .condTrue => .ok (effectiveRange r modtime)

/-- Go `net/http.httpRange`. -/
structure HttpRange where
  start : Nat
  length : Nat
  deriving DecidableEq, Repr

/-- The two errors of `parseRange`. -/
inductive RangeErr where
  | invalid
  | noOverlap
  deriving DecidableEq, Repr

/-- The loop of Go `net/http.parseRange` over the elements of the header: `acc` are the
ranges found so far, last one first. -/
def parseRangeLoop (size : Nat) : List ByteRange → List HttpRange → Bool →
    Except RangeErr (List HttpRange)
  | [], acc, noOverlap => if noOverlap ∧ acc = [] then .error .noOverlap else .ok acc.reverse
  | .suffix n :: rest, acc, noOverlap =>
    parseRangeLoop size rest (⟨size - min n size, min n size⟩ :: acc) noOverlap
  | .fromTo start last :: rest, acc, noOverlap =>
    if size ≤ start then parseRangeLoop size rest acc true
    else
      match last with
      | none => parseRangeLoop size rest (⟨start, size - start⟩ :: acc) noOverlap
      | some j =>
        if j < start then .error .invalid
        else
          parseRangeLoop size rest
            (⟨start, (if size ≤ j then size - 1 else j) - start + 1⟩ :: acc) noOverlap

/-- Go `net/http.parseRange`. -/
def parseRange (h : Option RangeHeader) (size : Nat) : Except RangeErr (List HttpRange) :=
  match h with
  | none => .ok []
  | some .malformed => .error .invalid
  | some (.ranges rs) => parseRangeLoop size rs [] false

/-- The bytes of a range. -/
def sliceOf (content : String) (ra : HttpRange) : String :=
  String.mk ((content.data.drop ra.start).take ra.length)

/-- Go `net/http.serveContent` for a GET request. -/
def serveContent (r : Request) (content : String) (modtime : Nat) : Response :=
  match checkPreconditions r modtime with
  | .error resp => resp
  | .ok rangeReq =>
    match parseRange rangeReq content.data.length with
    | .error .noOverlap =>
      if content.data.length = 0 then ⟨200, none, .content content⟩
      else httpError "invalid range: failed to overlap" 416
    | .error .invalid => httpError "invalid range" 416
    | .ok ranges =>
      if content.data.length < (ranges.map (fun ra => ra.length)).sum then
        ⟨200, none, .content content⟩
      else
        match ranges with
        | [] => ⟨200, none, .content content⟩
        | [ra] => ⟨206, none, .content (sliceOf content ra)⟩
        | _ => ⟨206, none, .parts (ranges.map (fun ra => (ra.start, sliceOf content ra)))⟩

/-- Go `net/http.dirList`, with the check of `If-Modified-Since` that precedes it. -/
def dirList (r : Request) (name : String) (modtime : Nat) : Response :=
  if checkIfModifiedSince r modtime = .condFalse then notModified
  else ⟨200, none, .listing name⟩

/-- Go `net/http.serveFile(w, r, http.Dir(dir), name, redirect)`. -/
def serveFile (env : Env) (r : Request) (dir name : String) (redirect : Bool) : Response :=
  -- redirect .../index.html to .../
  if hasSuffix r.Path "/index.html" then localRedirect r "./"
  else
    match dirOpen env dir name with
    | .error e => serveOpenError e
    | .ok d =>
      if redirect ∧ d.isDir ∧ ¬ endsWithSlash r.Path then
        localRedirect r (pathBase r.Path ++ "/")
      else if redirect ∧ ¬ d.isDir ∧ endsWithSlash r.Path then
        if pathBase r.Path = "/" ∨ pathBase r.Path = "." then
          httpError "http: attempting to traverse a non-directory" 500
        else localRedirect r ("../" ++ pathBase r.Path)
      else
        match d with
        | .file c m => serveContent r c m
        | .dir m =>
          if ¬ endsWithSlash r.Path then localRedirect r (pathBase r.Path ++ "/")
          else
            -- use contents of index.html for directory, if present
            match dirOpen env dir (trimSuffix name "/" ++ "/index.html") with
            | .ok (.file c m2) => serveContent r c m2
            | .ok (.dir m2) => dirList r (trimSuffix name "/" ++ "/index.html") m2
            | .error _ => dirList r name m

/-- Go `http.ServeFile(w, r, name)`. -/
def ServeFile (env : Env) (r : Request) (name : String) : Response :=
  if containsDotDot r.Path then httpError "invalid URL path" 400
  else serveFile env r (pathSplit name).1 (pathSplit name).2 false

/-- `ServeHTTP` of the file-serving handlers: `http.FileServer(http.Dir(root))` and
`http.StripPrefix(pre, h)`. -/
def FileHandler.ServeHTTP (env : Env) : FileHandler → Request → Response
  | .fileServer root, r =>
    let upath := if hasPrefix r.Path "/" then r.Path else "/" ++ r.Path
    serveFile env { r with Path := upath } root (pathClean upath) true
  | .stripPrefix pre h, r =>
    if pre = "" then h.ServeHTTP env r
    else
      let p := trimPrefix r.Path pre
      let rp := trimPrefix r.RawPath pre
      if p.data.length < r.Path.data.length ∧
          (r.RawPath = "" ∨ rp.data.length < r.RawPath.data.length) then
        h.ServeHTTP env { r with Path := p, RawPath := rp }
      else httpNotFound

/-- The wildcard handler of lines 127-134. -/
def spaFallbackServe (env : Env) (pub root : String) (fs : FileHandler) (r : Request) :
    Response :=
  let file := replaceFirst r.RequestURI pub "/"
  if isNotExist (env.Stat (root ++ file)) then
    ServeFile env r (pathJoin root "index.html")
  else fs.ServeHTTP env r

/-- A lower-case hexadecimal digit. -/
def hexDigit (n : Nat) : Char :=
  if n < 10 then Char.ofNat (48 + n) else Char.ofNat (87 + n)

/-- The bytes of the UTF-8 encoding of a character. -/
def utf8Bytes (c : Char) : List Nat :=
  if c.toNat < 128 then [c.toNat]
  else if c.toNat < 2048 then [192 + c.toNat / 64, 128 + c.toNat % 64]
  else if c.toNat < 65536 then
    [224 + c.toNat / 4096, 128 + c.toNat / 64 % 64, 128 + c.toNat % 64]
  else
    [240 + c.toNat / 262144, 128 + c.toNat / 4096 % 64, 128 + c.toNat / 64 % 64,
     128 + c.toNat % 64]

/-- The worker of `hexEscapeNonASCII`. -/
def hexEscapeChars : List Char → List Char
  | [] => []
  | c :: cs =>
    if c.toNat < 128 then c :: hexEscapeChars cs
    else
      (utf8Bytes c).foldr
        (fun b acc => '%' :: hexDigit (b / 16) :: hexDigit (b % 16) :: acc) (hexEscapeChars cs)

/-- Go `net/http.hexEscapeNonASCII`: every byte outside ASCII becomes `%` and two lower-case
hexadecimal digits. -/
def hexEscapeNonASCII (s : String) : String := String.mk (hexEscapeChars s.data)

/-- A redirect target that `url.Parse` certainly reads as a path without scheme and host: it
begins with one slash, not two, and has no control character, no `%` and no `#`. -/
def simpleLocalPath (url : String) : Bool :=
  url.data.head? = some '/' && !hasPrefix url "//" &&
    url.data.all (fun c => 32 ≤ c.toNat && c.toNat ≠ 127 && c ≠ '%' && c ≠ '#')

/-- The part of a target before its first `?`, and the rest from the `?` on. -/
def cutQuery : List Char → List Char × List Char
  | [] => ([], [])
  | c :: cs => if c = '?' then ([], c :: cs) else (c :: (cutQuery cs).1, (cutQuery cs).2)

/-- The target of Go `http.Redirect` as it is sent: a target without scheme and host is made
absolute with the directory of the request path, and its path is cleaned, a trailing slash
kept; another target is left as it is. -/
def redirectTarget (env : Env) (r : Request) (url : String) : String :=
  if simpleLocalPath url || env.UrlLocal url then
    let abs :=
      if url = "" ∨ url.data.head? ≠ some '/' then
        (pathSplit (if r.Path = "" then "/" else r.Path)).1 ++ url
      else url
    let path := String.mk (cutQuery abs.data).1
    let query := String.mk (cutQuery abs.data).2
    let cleaned := pathClean path
    (if endsWithSlash path ∧ ¬ endsWithSlash cleaned then cleaned ++ "/" else cleaned) ++ query
  else url

/-- Go `http.Redirect(w, r, url, code)` for a GET request. -/
def httpRedirect (env : Env) (r : Request) (url : String) (code : Nat) : Response :=
  ⟨code, some (hexEscapeNonASCII (redirectTarget env r url)),
   .redirectNote (redirectTarget env r url)⟩

/-- `ServeHTTP` of the handlers of the route table. -/
def Handler.ServeHTTP (env : Env) : Handler → Request → Response
  | .media name, r => env.Media name r
  | .redirect url code, r => httpRedirect env r url code
  | .spaFallback pub root fs, r => spaFallbackServe env pub root fs r

/-! ## Part 2: the periodic updater (`startYtDlpUpdater`) -/

/-- Package `media` as `startYtDlpUpdater` uses it. The package is not part of the embedded
file, so its two functions are parameters: `UpdateYtDlp k` tells whether call number `k`
(counted from 0) of `media.UpdateYtDlp` returns a nil error, and `GetInstalledVersion k` is
what `media.GetInstalledVersion()` returns once `k` update attempts have been made. -/
structure Media where
  UpdateYtDlp : Nat → Bool
  GetInstalledVersion : Nat → String

/-- The observable events of the updater. -/
inductive UpdaterEvent where
  /-- A call of `media.UpdateYtDlp`, with whether it returned a nil error. -/
  | updateAttempt (ok : Bool)
  /-- The log line `yt-dlp version: ...`. -/
  | versionLog (line : String)
  deriving DecidableEq, Repr

/-- The state of the updater after `startYtDlpUpdater` has been called. -/
structure Updater where
  /-- The number of calls of `media.UpdateYtDlp` made so far. -/
  calls : Nat
  /-- The goroutine of lines 96-107 is in its `for`/`select` loop. -/
  looping : Bool
  /-- `ticker.Stop()` has been called. -/
  tickerStopped : Bool
  /-- The events so far, oldest first. -/
  trace : List UpdaterEvent
  deriving DecidableEq, Repr

/-- The case of the `select` statement of lines 98-105 that fires: a receive from `ticker.C`
or a receive from `quit`. -/
inductive Fire where
  | tick
  | quit
  deriving DecidableEq, Repr

/-- The log line of `log.Info().Msgf("yt-dlp version: %s", v)`. -/
def versionLine (v : String) : String := "yt-dlp version: " ++ v

/-- The body of `startYtDlpUpdater` up to the start of the goroutine (lines 89-96): the
version is logged, the ticker is created, one update is made, the loop begins. -/
def startYtDlpUpdater (m : Media) : Updater :=
  { calls := 1
    looping := true
    tickerStopped := false
    trace := [.versionLog (versionLine (m.GetInstalledVersion 0)),
              .updateAttempt (m.UpdateYtDlp 0)] }

/-- One iteration of the loop of lines 97-106. A goroutine that has returned receives
nothing any more. -/
def loopStep (m : Media) (u : Updater) : Fire → Updater
  | .tick =>
    if u.looping then
      { u with
        calls := u.calls + 1
        trace := u.trace ++ [.updateAttempt (m.UpdateYtDlp u.calls),
                             .versionLog (versionLine (m.GetInstalledVersion (u.calls + 1)))] }
    else u
  | .quit =>
    if u.looping then { u with looping := false, tickerStopped := true } else u

/-- The updater after the given `select` cases have fired in order. -/
def runLoop (m : Media) (u : Updater) (fires : List Fire) : Updater :=
  fires.foldl (loopStep m) u

/-- The update attempts of a trace. -/
def attempts (t : List UpdaterEvent) : List Bool :=
  t.filterMap (fun e => match e with | .updateAttempt ok => some ok | .versionLog _ => none)

/-- Every update attempt of the trace has a version log right after it. -/
def eachAttemptLogged : List UpdaterEvent → Bool
  | [] => true
  | .versionLog _ :: rest => eachAttemptLogged rest
  | .updateAttempt _ :: .versionLog _ :: rest => eachAttemptLogged rest
  | .updateAttempt _ :: _ => false

/-- The events that the tick making call number `k` appends to the trace. -/
def tickEvents (m : Media) (k : Nat) : List UpdaterEvent :=
  [.updateAttempt (m.UpdateYtDlp k), .versionLog (versionLine (m.GetInstalledVersion (k + 1)))]

/-- The events of `n` ticks in a row, the first of them making call number `k`. -/
def tickTrace (m : Media) : Nat → Nat → List UpdaterEvent
  | _, 0 => []
  | k, n + 1 => tickEvents m k ++ tickTrace m (k + 1) n

/-! ## Part 3: the lifecycle of `main` (lines 45-85) -/

/-- The four signals of `signal.Notify` on line 53. -/
inductive Signal where
  | SIGHUP
  | SIGINT
  | SIGTERM
  | SIGQUIT
  deriving DecidableEq, Repr

/-- The error of a context that is done. -/
inductive CtxErr where
  | Canceled
  | DeadlineExceeded
  deriving DecidableEq, Repr

/-- The non-nil errors that reach `main`. -/
inductive Err where
  /-- Go `http.ErrServerClosed`. -/
  | ErrServerClosed
  /-- The error of the context given to `server.Shutdown`. -/
  | ctx (e : CtxErr)
  /-- Any other error, for instance that the address cannot be bound. -/
  | other (text : String)
  deriving DecidableEq, Repr

/-- The zerolog levels used by main.go. -/
inductive Level where
  | info
  | fatal
  deriving DecidableEq, Repr

/-- A zerolog `*Event` under construction. -/
structure LogEvent where
  level : Level
  /-- The field that `Err(err)` adds. -/
  err : Option Err
  deriving DecidableEq, Repr

/-- A written log line. -/
structure LogLine where
  level : Level
  err : Option Err
  message : String
  deriving DecidableEq, Repr

/-- The process as the operating system sees it. -/
inductive Proc where
  | running
  | exited (code : Nat)
  deriving DecidableEq, Repr

/-- Where the main goroutine is. -/
inductive MainPc where
  /-- Line 77: inside `server.ListenAndServe()`. -/
  | listenAndServe
  /-- Line 78: `ListenAndServe` has returned `err`. -/
  | checkErr (err : Option Err)
  /-- Line 83: at `<-serverCtx.Done()`. -/
  | waitServerCtx
  /-- Line 84: about to log "Shutdown complete". -/
  | logComplete
  /-- Line 85: about to return from `main`. -/
  | returning
  | returned
  deriving DecidableEq, Repr

/-- Where the goroutine of lines 54-74 is. -/
inductive SigPc where
  /-- Line 55: at `<-sig`. -/
  | recvSig
  /-- Line 58: about to create the shutdown context. -/
  | withTimeout
  /-- Line 61: about to start the timeout watcher. -/
  | spawnWatcher
  /-- Line 69: about to call `server.Shutdown(shutdownCtx)`. -/
  | callShutdown
  /-- Line 69: inside `server.Shutdown`. -/
  | inShutdown
  /-- Line 70: `Shutdown` has returned `err`. -/
  | checkErr (err : Option Err)
  /-- Line 73: about to call `serverStopCtx()`. -/
  | stopCtx
  /-- Line 59: the deferred `cancel()` runs as the function returns. -/
  | deferredCancel
  | done
  deriving DecidableEq, Repr

/-- Where the goroutine of lines 61-66 is. -/
inductive WatchPc where
  | notStarted
  /-- Line 62: at `<-shutdownCtx.Done()`. -/
  | waitDone
  /-- Line 63: about to test `shutdownCtx.Err()`. -/
  | checkDeadline
  | done
  deriving DecidableEq, Repr

/-- The state of the process between line 53 and its exit. -/
structure State where
  proc : Proc
  main : MainPc
  sigG : SigPc
  watcher : WatchPc
  /-- The channel `sig`, of capacity 1. -/
  sigBuf : Option Signal
  /-- `serverCtx.Err()`. -/
  serverCtx : Option CtxErr
  /-- The shutdown context: `none` before line 58, then its `Err()`. -/
  shutdownCtx : Option (Option CtxErr)
  /-- `server.Shutdown` has been called: the listener is closed. -/
  serverClosed : Bool
  /-- The number of receives from `sig`. -/
  sigReads : Nat
  /-- The number of shutdown contexts created. -/
  ctxCreated : Nat
  /-- The number of calls of `server.Shutdown`. -/
  shutdownCalls : Nat
  /-- The log lines written, oldest first. -/
  log : List LogLine
  deriving DecidableEq, Repr

/-- What can happen next: something from outside the process, or the scheduler letting one
of the three goroutines take its next step. -/
inductive Ev where
  /-- The operating system delivers a signal: the runtime sends it on `sig` without blocking. -/
  | signal (σ : Signal)
  /-- `server.ListenAndServe()` comes back by itself with `err`. -/
  | listenReturns (err : Option Err)
  /-- All connections are idle: the poll loop of `server.Shutdown` finds the server closed
  and returns the error of closing the listeners. -/
  | connsIdle (lnerr : Option String)
  /-- The 30 second timer of the shutdown context fires. -/
  | deadline
  | main
  | sigG
  | watcher
  deriving DecidableEq, Repr

/-- Zerolog `log.Fatal()`: starts an event of level fatal. The library documents it as
"Fatal starts a new message with fatal level. The os.Exit(1) function is called by the Msg
method. You must call Msg on the returned event in order to send the event." With the
default global level, which main.go does not change, the event is enabled. -/
def logFatal : LogEvent := ⟨.fatal, none⟩

/-- Zerolog `log.Info()`: starts an event of level info. -/
def logInfo : LogEvent := ⟨.info, none⟩

/-- Zerolog `(*Event).Err(err)`: adds the error field to the event and returns the event.
Nothing is written and nothing exits. -/
def LogEvent.Err (e : LogEvent) (err : Option Err) : LogEvent := { e with err := err }

/-- Zerolog `(*Event).Msg(msg)` (and `Msgf`): the event is written, and an event of level
fatal then calls `os.Exit(1)`. Writing and exiting belong to `Msg`, not to `Fatal()`. -/
def LogEvent.Msg (e : LogEvent) (message : String) (s : State) : State :=
  let s1 := { s with log := s.log ++ [⟨e.level, e.err, message⟩] }
  match e.level with
  | .fatal => { s1 with proc := .exited 1 }
  | .info => s1

/-- An expression statement whose value, a zerolog event, is dropped (lines 71 and 79 end
in `.Err(err)`, with no `Msg`, `Msgf` or `Send` after it): the state stays. -/
def dropEvent (_ : LogEvent) (s : State) : State := s

/-- Go `errors.Is(err, http.ErrServerClosed)`. -/
def isServerClosed : Option Err → Bool
  | some .ErrServerClosed => true
  | _ => false

/-- The state at line 53: the server is built, the signal channel registered, no goroutine
has run yet. -/
def State.init : State :=
  { proc := .running, main := .listenAndServe, sigG := .recvSig, watcher := .notStarted,
    sigBuf := none, serverCtx := none, shutdownCtx := none, serverClosed := false,
    sigReads := 0, ctxCreated := 0, shutdownCalls := 0, log := [] }

/-- Cancelling a context that is not done yet sets its error; a done context keeps its own. -/
def cancelWith (e : CtxErr) : Option CtxErr → Option CtxErr
  | none => some e
  | some e0 => some e0

/-- The next step of the main goroutine (lines 77-85). -/
def stepMain (s : State) : State :=
  match s.main with
  | .listenAndServe =>
    if s.serverClosed then { s with main := .checkErr (some .ErrServerClosed) } else s
  | .checkErr err =>
    -- if err != nil && !errors.Is(err, http.ErrServerClosed) { log.Fatal().Err(err) }
    if err.isSome ∧ ¬ isServerClosed err then
      { dropEvent (logFatal.Err err) s with main := .waitServerCtx }
    else { s with main := .waitServerCtx }
  | .waitServerCtx => if s.serverCtx.isSome then { s with main := .logComplete } else s
  | .logComplete => { logInfo.Msg "Shutdown complete" s with main := .returning }
  | .returning => { s with main := .returned, proc := .exited 0 }
  | .returned => s

/-- The next step of the signal goroutine (lines 54-74). -/
def stepSig (s : State) : State :=
  match s.sigG with
  | .recvSig =>
    match s.sigBuf with
    | none => s
    | some _ => { s with sigBuf := none, sigReads := s.sigReads + 1, sigG := .withTimeout }
  | .withTimeout =>
    -- context.WithTimeout(serverCtx, 30*time.Second): a child of serverCtx
    { s with shutdownCtx := some s.serverCtx, ctxCreated := s.ctxCreated + 1,
             sigG := .spawnWatcher }
  | .spawnWatcher => { s with watcher := .waitDone, sigG := .callShutdown }
  | .callShutdown =>
    { s with serverClosed := true, shutdownCalls := s.shutdownCalls + 1, sigG := .inShutdown }
  | .inShutdown =>
    match s.shutdownCtx with
    | some (some e) => { s with sigG := .checkErr (some (.ctx e)) }
    | _ => s
  | .checkErr err =>
    -- if err != nil { log.Fatal().Err(err) }
    if err.isSome then { dropEvent (logFatal.Err err) s with sigG := .stopCtx }
    else { s with sigG := .stopCtx }
  | .stopCtx =>
    -- serverStopCtx(): cancels serverCtx and, with it, its child
    { s with serverCtx := cancelWith .Canceled s.serverCtx,
             shutdownCtx := s.shutdownCtx.map (cancelWith .Canceled),
             sigG := .deferredCancel }
  | .deferredCancel =>
    { s with shutdownCtx := s.shutdownCtx.map (cancelWith .Canceled), sigG := .done }
  | .done => s

/-- The next step of the timeout watcher (lines 61-66). -/
def stepWatcher (s : State) : State :=
  match s.watcher with
  | .notStarted => s
  | .waitDone =>
    match s.shutdownCtx with
    | some (some _) => { s with watcher := .checkDeadline }
    | _ => s
  | .checkDeadline =>
    if s.shutdownCtx = some (some .DeadlineExceeded) then
      { logFatal.Msg "graceful shutdown timed out.. forcing exit." s with watcher := .done }
    else { s with watcher := .done }
  | .done => s

/-- One transition of the process. Nothing happens in a process that has exited. -/
def step (s : State) (e : Ev) : State :=
  if s.proc ≠ .running then s
  else
    match e with
    | .signal σ => if s.sigBuf.isNone then { s with sigBuf := some σ } else s
    | .listenReturns err =>
      if s.main = .listenAndServe then { s with main := .checkErr err } else s
    | .connsIdle lnerr =>
      if s.sigG = .inShutdown then { s with sigG := .checkErr (lnerr.map .other) } else s
    | .deadline =>
      match s.shutdownCtx with
      | some none => { s with shutdownCtx := some (some .DeadlineExceeded) }
      | _ => s
    | .main => stepMain s
    | .sigG => stepSig s
    | .watcher => stepWatcher s

/-- The state after the given events, from `s`. -/
def run (s : State) (evs : List Ev) : State := evs.foldl step s

/-- The state without the identity of the buffered signal. -/
def State.forgetSignal (s : State) : State :=
  { s with sigBuf := s.sigBuf.map (fun _ => .SIGHUP) }

/-- The state without the contents of the signal channel. -/
def State.forgetBuffer (s : State) : State :=
  { s with sigBuf := none }

/-! ## Example inputs -/

/-- The files of the example file system, by cleaned path. The last one is a file whose name
holds a percent sign. -/
def exampleFiles : List (String × Node) :=
  [("/", .dir 1700000000), ("/srv", .dir 1700000000), ("/srv/static", .dir 1700000000),
   ("/srv/static/index.html", .file "<!doctype html>" 1700000000),
   ("/srv/static/app.js", .file "console.log(1)" 1700000000),
   ("/srv/static/a%20b", .file "escaped" 1700000000)]

/-- The `os.Stat` of the example file system: a path of the table is found, a path below a
regular file fails with ENOTDIR, every other path does not exist. -/
def exampleStat (p : String) : Except FsErr Node :=
  match exampleFiles.lookup (pathClean p) with
  | some n => .ok n
  | none =>
    if exampleFiles.any (fun e => !e.2.isDir && hasPrefix (pathClean p) (e.1 ++ "/")) then
      .error .notDir
    else .error .notExist

/-- An example environment: the working directory is `/srv`, the file system holds
`/srv/static/index.html` and `/srv/static/app.js`, and every file can be opened. -/
def exampleEnv : Env :=
  { Abs := fun p => if hasPrefix p "/" then pathClean p else pathJoin "/srv" p
    Stat := exampleStat
    Open := exampleStat
    UrlLocal := fun _ => true
    Media := fun _ _ => ⟨200, none, .empty⟩ }

/-- The example environment with an `index.html` that the process may not read. -/
def lockedEnv : Env :=
  { exampleEnv with
    Open := fun p =>
      if pathClean p = "/srv/static/index.html" then .error .permission else exampleStat p }

/-- The handler `fs` that `fileServer(router, "/static", "static/")` builds on line 120. -/
def exampleFs : FileHandler := .stripPrefix "/static" (.fileServer "/srv/static")

/-- A GET request for the given path and query string without conditional headers, as
net/http parses it when the path needs no escaping. -/
def getRequest (path query : String) : Request :=
  { RequestURI := if query = "" then path else path ++ "?" ++ query
    Path := path
    RawPath := ""
    RawQuery := query
    IfMatch := none
    IfUnmodifiedSince := none
    IfNoneMatch := none
    IfModifiedSince := none
    Range := none
    IfRange := none }

/-- The request `GET /static/a%20b`: the request URI keeps the escape, the URL path is
decoded. -/
def escapedRequest : Request :=
  { getRequest "/static/a b" "" with RequestURI := "/static/a%20b" }

/-- An example of package `media`: the first update attempt succeeds, the later ones fail, and
the installed version is `2024.01.01` before the first attempt and `2024.06.01` after it. -/
def exampleMedia : Media :=
  { UpdateYtDlp := fun k => k == 0
    GetInstalledVersion := fun k => if k = 0 then "2024.01.01" else "2024.06.01" }

/-- How far the signal goroutine has come, as a number. -/
def SigPc.rank : SigPc → Nat
  | .recvSig => 0
  | .withTimeout => 1
  | .spawnWatcher => 2
  | .callShutdown => 3
  | .inShutdown => 4
  | .checkErr _ => 5
  | .stopCtx => 6
  | .deferredCancel => 7
  | .done => 8

/-- The counters that belong to a position of the signal goroutine: one receive once line 55
is passed, one shutdown context once line 58 is passed, one call of `server.Shutdown` once
line 69 is entered. -/
def countersMatch (s : State) : Prop :=
  s.sigReads = (if 1 ≤ s.sigG.rank then 1 else 0) ∧
  s.ctxCreated = (if 2 ≤ s.sigG.rank then 1 else 0) ∧
  s.shutdownCalls = (if 4 ≤ s.sigG.rank then 1 else 0)

/-- The effects that belong to a position of the signal goroutine: the shutdown context
exists once line 58 is passed, the watcher runs once line 61 is passed, the listener is
closed once `server.Shutdown` is entered on line 69. -/
def effectsMatch (s : State) : Prop :=
  (s.shutdownCtx.isSome = true ↔ 2 ≤ s.sigG.rank) ∧
  (s.watcher ≠ .notStarted ↔ 3 ≤ s.sigG.rank) ∧
  (s.serverClosed = true ↔ 4 ≤ s.sigG.rank)

/-- The main goroutine has not passed `<-serverCtx.Done()`. -/
def MainPc.waiting : MainPc → Bool
  | .listenAndServe => true
  | .checkErr _ => true
  | .waitServerCtx => true
  | _ => false

/-- Nothing stands in the way of the signal goroutine reaching its call of
`server.Shutdown`: it has made the call, or the process runs, the deadline has not ended the
shutdown context, and the server context is not cancelled. -/
def onTrack (s : State) : Prop :=
  4 ≤ s.sigG.rank ∨
    (s.proc = .running ∧ s.shutdownCtx ≠ some (some .DeadlineExceeded) ∧
      s.serverCtx = none ∧ s.main.waiting = true)

/-- A signal has been received or waits in the channel. -/
def signalPending (s : State) : Prop :=
  1 ≤ s.sigG.rank ∨ s.sigBuf.isSome = true

/-- The state of a process to which no signal has been delivered: it runs, the signal
goroutine waits at `<-sig` on an empty channel, and no part of the shutdown has happened. -/
def quiet (s : State) : Prop :=
  s.proc = .running ∧ s.sigG = .recvSig ∧ s.sigBuf = none ∧ s.watcher = .notStarted ∧
    s.serverCtx = none ∧ s.shutdownCtx = none ∧ s.serverClosed = false ∧
    s.sigReads = 0 ∧ s.ctxCreated = 0 ∧ s.shutdownCalls = 0 ∧ s.main.waiting = true

/-- A schedule in which the server does not finish within the window: SIGTERM arrives, the
signal goroutine receives it, creates the shutdown context, starts the watcher and calls
`server.Shutdown`; the deadline passes; `Shutdown` returns the deadline error and the signal
goroutine runs on to `serverStopCtx()`; the main goroutine runs to its end. The watcher is
not scheduled in between. -/
def timedOutSchedule : List Ev :=
  [.signal .SIGTERM, .sigG, .sigG, .sigG, .sigG, .deadline,
   .sigG, .sigG, .sigG, .main, .main, .main, .main, .main]

/-- A schedule in which the server finishes within the window: as before up to the call of
`server.Shutdown`, then all connections are idle and `Shutdown` returns nil, the signal
goroutine calls `serverStopCtx()`, the 30 seconds pass, the watcher runs, and the main
goroutine runs to its end. -/
def inTimeSchedule : List Ev :=
  [.signal .SIGTERM, .sigG, .sigG, .sigG, .sigG, .connsIdle none,
   .sigG, .sigG, .deadline, .watcher, .watcher, .main, .main, .main, .main, .main]

/-! ## Theorems: the path functions -/

theorem splitAt_ne_nil (sep : Char → Bool) (l : List Char) : splitAt sep l ≠ [] := by
  cases l with
  | nil => simp [splitAt]
  | cons c cs =>
    simp only [splitAt]
    split
    · simp
    · split <;> simp

theorem splitAt_cons_sep (sep : Char → Bool) (c : Char) (l : List Char) (hc : sep c = true) :
    splitAt sep (c :: l) = [] :: splitAt sep l := by
  simp only [splitAt]
  split
  · next h => exact absurd h (splitAt_ne_nil sep l)
  · next seg rest h => simp [hc, h]

theorem splitAt_cons_other (sep : Char → Bool) (c : Char) (l : List Char) (hc : sep c = false) :
    splitAt sep (c :: l) =
      (c :: (splitAt sep l).headD []) :: (splitAt sep l).tail := by
  simp only [splitAt]
  split
  · next h => exact absurd h (splitAt_ne_nil sep l)
  · next seg rest h => simp [hc, h]

theorem splitAt_append (sep : Char → Bool) (c : Char) (hc : sep c = true) (b : List Char) :
    ∀ a : List Char, splitAt sep (a ++ c :: b) = splitAt sep a ++ splitAt sep b := by
  intro a
  induction a with
  | nil => rw [List.nil_append, splitAt_cons_sep sep c b hc]; rfl
  | cons x a ih =>
    cases hx : sep x with
    | true => rw [List.cons_append, splitAt_cons_sep sep x _ hx, splitAt_cons_sep sep x _ hx, ih]; rfl
    | false =>
      rw [List.cons_append, splitAt_cons_other sep x _ hx, splitAt_cons_other sep x _ hx, ih]
      cases hs : splitAt sep a with
      | nil => exact absurd hs (splitAt_ne_nil sep a)
      | cons seg rest => simp

theorem splitAt_noSep (sep : Char → Bool) : ∀ l : List Char, (∀ c ∈ l, sep c = false) →
    splitAt sep l = [l] := by
  intro l
  induction l with
  | nil => intro _; simp [splitAt]
  | cons x l ih =>
    intro h
    have hx : sep x = false := h x (by simp)
    rw [splitAt_cons_other sep x _ hx, ih (fun c hc => h c (by simp [hc]))]
    simp

theorem splitAt_mem_noSep (sep : Char → Bool) : ∀ l : List Char, ∀ seg ∈ splitAt sep l,
    ∀ c ∈ seg, sep c = false := by
  intro l
  induction l with
  | nil => intro seg hseg c hc; simp [splitAt] at hseg; subst hseg; simp at hc
  | cons x l ih =>
    intro seg hseg c hc
    cases hx : sep x with
    | true =>
      rw [splitAt_cons_sep sep x _ hx] at hseg
      rcases List.mem_cons.1 hseg with h | h
      · subst h; simp at hc
      · exact ih seg h c hc
    | false =>
      rw [splitAt_cons_other sep x _ hx] at hseg
      cases hs : splitAt sep l with
      | nil => exact absurd hs (splitAt_ne_nil sep l)
      | cons s0 rest =>
        rw [hs] at hseg ih
        simp only [List.headD_cons, List.tail_cons, List.mem_cons] at hseg
        rcases hseg with h | h
        · subst h
          rcases List.mem_cons.1 hc with h2 | h2
          · subst h2; exact hx
          · exact ih s0 (by simp) c h2
        · exact ih seg (by simp [h]) c hc

theorem cleaned_append_single (rooted : Bool) (x : List Char) :
    ∀ (segs acc : List (List Char)),
      Cleaned rooted acc (segs ++ [x]) ↔
        Cleaned rooted acc segs ∧ (x ≠ [] ∧ x ≠ ['.'] ∧
          (x = ['.', '.'] → rooted = false ∧ ∀ t ∈ segs.reverse ++ acc, t = ['.', '.'])) := by
  intro segs
  induction segs with
  | nil => intro acc; simp [Cleaned]
  | cons s segs ih =>
    intro acc
    show (_ ∧ Cleaned rooted (s :: acc) (segs ++ [x])) ↔
      (_ ∧ Cleaned rooted (s :: acc) segs) ∧ _
    rw [ih (s :: acc)]
    simp only [List.reverse_cons, List.append_assoc, List.singleton_append]
    tauto

theorem cleanSegs_cleaned (rooted : Bool) : ∀ (segs acc : List (List Char)),
    Cleaned rooted [] acc.reverse → Cleaned rooted [] (cleanSegs rooted segs acc) := by
  intro segs
  induction segs with
  | nil => intro acc h; simpa [cleanSegs] using h
  | cons seg rest ih =>
    intro acc h
    unfold cleanSegs
    by_cases h1 : seg = [] ∨ seg = ['.']
    · simp only [h1, if_true]; exact ih acc h
    · simp only [h1, if_false]
      by_cases h2 : seg = ['.', '.']
      · simp only [h2, if_true]
        cases acc with
        | nil =>
          cases rooted with
          | true => simpa using ih [] h
          | false =>
            simp only [Bool.false_eq_true, if_false]
            exact ih [['.', '.']] (by simp [Cleaned])
        | cons top acc' =>
          simp only [List.reverse_cons] at h
          rw [cleaned_append_single] at h
          by_cases h3 : top = ['.', '.']
          · simp only [h3, if_true]
            apply ih
            subst h3
            simp only [List.reverse_cons, List.append_assoc, List.singleton_append]
            rw [← List.singleton_append, ← List.append_assoc, cleaned_append_single]
            rw [cleaned_append_single]
            refine ⟨⟨h.1, h.2⟩, by decide, by decide, fun _ => ⟨(h.2.2.2 rfl).1, ?_⟩⟩
            intro t ht
            have hall := (h.2.2.2 rfl).2
            simp only [List.reverse_append, List.reverse_cons, List.reverse_nil, List.nil_append,
              List.reverse_reverse, List.append_nil, List.mem_append, List.mem_singleton,
              List.mem_cons] at ht hall
            rcases ht with (ht | ht) | ht
            · exact ht
            · simp at ht
            · exact hall t ht
          · simp only [h3, if_false]
            exact ih acc' h.1
      · simp only [h2, if_false]
        apply ih
        simp only [List.reverse_cons]
        rw [cleaned_append_single]
        push_neg at h1
        exact ⟨h, h1.1, h1.2, fun hdd => absurd hdd h2⟩

theorem cleanSegs_of_cleaned (rooted : Bool) : ∀ (segs acc : List (List Char)),
    Cleaned rooted acc segs → cleanSegs rooted segs acc = acc.reverse ++ segs := by
  intro segs
  induction segs with
  | nil => intro acc _; simp [cleanSegs]
  | cons seg rest ih =>
    intro acc h
    obtain ⟨⟨hne, hdot, hdd⟩, hrest⟩ := h
    unfold cleanSegs
    have h1 : ¬ (seg = [] ∨ seg = ['.']) := by simp [hne, hdot]
    simp only [h1, if_false]
    by_cases h2 : seg = ['.', '.']
    · obtain ⟨hr, hall⟩ := hdd h2
      subst hr
      simp only [h2, if_true]
      cases acc with
      | nil =>
        simp only [Bool.false_eq_true, if_false]
        rw [ih [['.', '.']] (by simpa [h2] using hrest)]
        simp [h2]
      | cons top acc' =>
        have htop : top = ['.', '.'] := hall top (by simp)
        simp only [htop, if_true]
        rw [ih _ (by simpa [h2, htop] using hrest)]
        simp [h2, htop]
    · simp only [h2, if_false]
      rw [ih _ hrest]
      simp

theorem cleanSegs_idem (rooted : Bool) (segs : List (List Char)) :
    cleanSegs rooted (cleanSegs rooted segs []) [] = cleanSegs rooted segs [] := by
  have h := cleanSegs_cleaned rooted segs [] (by simp [Cleaned])
  simpa using cleanSegs_of_cleaned rooted _ [] h

theorem cleaned_ne_nil (rooted : Bool) : ∀ (segs acc : List (List Char)),
    Cleaned rooted acc segs → ∀ seg ∈ segs, seg ≠ [] := by
  intro segs
  induction segs with
  | nil => intro acc _ seg hseg; simp at hseg
  | cons s rest ih =>
    intro acc h seg hseg
    rcases List.mem_cons.1 hseg with h1 | h1
    · subst h1; exact h.1.1
    · exact ih _ h.2 seg h1

theorem cleanSegs_mem (rooted : Bool) : ∀ (segs acc : List (List Char)),
    ∀ seg ∈ cleanSegs rooted segs acc, seg ∈ segs ∨ seg ∈ acc := by
  intro segs
  induction segs with
  | nil => intro acc seg h; simp [cleanSegs] at h; exact Or.inr h
  | cons s rest ih =>
    intro acc seg h
    unfold cleanSegs at h
    split at h
    · rcases ih _ _ h with h1 | h1
      · exact Or.inl (List.mem_cons_of_mem _ h1)
      · exact Or.inr h1
    · split at h
      · split at h
        · split at h
          · rcases ih _ _ h with h1 | h1
            · exact Or.inl (List.mem_cons_of_mem _ h1)
            · simp at h1
          · rcases ih _ _ h with h1 | h1
            · exact Or.inl (List.mem_cons_of_mem _ h1)
            · simp at h1; subst h1; simp
        · split at h
          · rcases ih _ _ h with h1 | h1
            · exact Or.inl (List.mem_cons_of_mem _ h1)
            · simp only [List.mem_cons] at h1
              rcases h1 with h1 | h1 | h1
              · subst h1; simp
              · subst h1; simp
              · exact Or.inr (by simp [h1])
          · rcases ih _ _ h with h1 | h1
            · exact Or.inl (List.mem_cons_of_mem _ h1)
            · exact Or.inr (by simp [h1])
      · rcases ih _ _ h with h1 | h1
        · exact Or.inl (List.mem_cons_of_mem _ h1)
        · simp only [List.mem_cons] at h1
          rcases h1 with h1 | h1
          · subst h1; simp
          · exact Or.inr h1

theorem cleanSegs_append_normal (rooted : Bool) (x : List Char) (h0 : x ≠ []) (h1 : x ≠ ['.'])
    (h2 : x ≠ ['.', '.']) : ∀ (segs acc : List (List Char)),
    cleanSegs rooted (segs ++ [x]) acc = cleanSegs rooted segs acc ++ [x] := by
  intro segs
  induction segs with
  | nil => intro acc; simp [cleanSegs, h0, h1, h2]
  | cons s rest ih =>
    intro acc
    simp only [List.cons_append]
    unfold cleanSegs
    split
    · exact ih _
    · split
      · split
        · split <;> exact ih _
        · split <;> exact ih _
      · exact ih _

theorem cleanSegs_append_empty (rooted : Bool) : ∀ (segs acc : List (List Char)),
    cleanSegs rooted (segs ++ [[]]) acc = cleanSegs rooted segs acc := by
  intro segs
  induction segs with
  | nil => intro acc; simp [cleanSegs]
  | cons s rest ih =>
    intro acc
    simp only [List.cons_append]
    unfold cleanSegs
    split
    · exact ih _
    · split
      · split
        · split <;> exact ih _
        · split <;> exact ih _
      · exact ih _

theorem joinSlash_append_single (x : List Char) : ∀ segs : List (List Char), segs ≠ [] →
    joinSlash (segs ++ [x]) = joinSlash segs ++ '/' :: x := by
  intro segs
  induction segs with
  | nil => intro h; exact absurd rfl h
  | cons s rest ih =>
    intro _
    cases rest with
    | nil => simp [joinSlash]
    | cons k rest' =>
      have := ih (by simp)
      simp only [List.cons_append] at this ⊢
      simp [joinSlash, this]

theorem splitAt_joinSlash : ∀ segs : List (List Char), segs ≠ [] →
    (∀ seg ∈ segs, ∀ c ∈ seg, decide (c = '/') = false) →
    splitAt (fun c => decide (c = '/')) (joinSlash segs) = segs := by
  intro segs
  induction segs with
  | nil => intro h; exact absurd rfl h
  | cons s rest ih =>
    intro _ hfree
    cases rest with
    | nil => simpa [joinSlash] using splitAt_noSep _ s (hfree s (by simp))
    | cons k rest' =>
      simp only [joinSlash]
      rw [splitAt_append _ '/' (by decide), splitAt_noSep _ s (hfree s (by simp)),
        ih (by simp) (fun seg hseg => hfree seg (by simp [hseg]))]
      rfl

theorem splitAt_dirOf : ∀ segs : List (List Char),
    (∀ seg ∈ segs, ∀ c ∈ seg, decide (c = '/') = false) →
    splitAt (fun c => decide (c = '/')) (dirOf segs) = segs ++ [[]] := by
  intro segs
  induction segs with
  | nil => intro _; rfl
  | cons s rest ih =>
    intro hfree
    simp only [dirOf, List.foldr_cons]
    rw [splitAt_append _ '/' (by decide), splitAt_noSep _ s (hfree s (by simp))]
    have := ih (fun seg hseg => hfree seg (by simp [hseg]))
    simp only [dirOf] at this
    rw [this]
    rfl

theorem pathSplit_of_split (p : String) (dirs : List (List Char)) (file : List Char)
    (h : splitAt (fun c => decide (c = '/')) p.data = dirs ++ [file]) :
    pathSplit p = (String.mk (dirOf dirs), String.mk file) := by
  simp [pathSplit, h, dirOf]

theorem pathClean_data (p : String) :
    (pathClean p).data =
      if p.data.head? = some '/' then
        '/' :: joinSlash (cleanSegs (decide (p.data.head? = some '/'))
          (splitAt (fun c => decide (c = '/')) p.data) [])
      else if joinSlash (cleanSegs (decide (p.data.head? = some '/'))
          (splitAt (fun c => decide (c = '/')) p.data) []) = [] then ['.']
      else joinSlash (cleanSegs (decide (p.data.head? = some '/'))
          (splitAt (fun c => decide (c = '/')) p.data) []) := by
  unfold pathClean
  simp only
  split
  · rfl
  · split <;> rfl

/-- The characters of `index.html`. -/
theorem index_chars : "index.html".data = ['i', 'n', 'd', 'e', 'x', '.', 'h', 't', 'm', 'l'] := by
  decide

theorem pathClean_dir_index (l : List Char) (hl : l ≠ []) (p : String)
    (hp : p.data = l ++ '/' :: "index.html".data) :
    (pathClean p).data =
      (if l.head? = some '/' then ['/'] else []) ++
        joinSlash (cleanSegs (decide (l.head? = some '/'))
          (splitAt (fun c => decide (c = '/')) l) [] ++ ["index.html".data]) := by
  have hhead : p.data.head? = l.head? := by
    rw [hp]; cases l with
    | nil => exact absurd rfl hl
    | cons c cs => rfl
  have hidx : splitAt (fun c => decide (c = '/')) "index.html".data = ["index.html".data] := by
    decide
  rw [pathClean_data, hhead, hp, splitAt_append _ '/' (by decide), hidx,
    cleanSegs_append_normal _ _ (by decide) (by decide) (by decide)]
  have hne : joinSlash (cleanSegs (decide (l.head? = some '/'))
      (splitAt (fun c => decide (c = '/')) l) [] ++ ["index.html".data]) ≠ [] := by
    cases hK : cleanSegs (decide (l.head? = some '/')) (splitAt (fun c => decide (c = '/')) l) []
      with
    | nil => decide
    | cons k rest =>
      rw [joinSlash_append_single _ _ (by simp)]
      simp
  split
  · rfl
  · simp [hne]

theorem dirFullName_index_name (dir : String) :
    dirFullName dir (String.mk "index.html".data) =
      pathJoin (if dir = "" then "." else dir) "index.html" := by
  have hp : (if String.mk ((pathClean ("/" ++ String.mk "index.html".data)).data.drop 1) = ""
      then "." else String.mk ((pathClean ("/" ++ String.mk "index.html".data)).data.drop 1))
      = "index.html" := by decide
  simp only [dirFullName, hp]

theorem pathJoin_index_data (d : List Char) (hd : d ≠ []) :
    (pathJoin (String.mk d) "index.html").data =
      (if d.head? = some '/' then ['/'] else []) ++
        joinSlash (cleanSegs (decide (d.head? = some '/'))
          (splitAt (fun c => decide (c = '/')) d) [] ++ ["index.html".data]) := by
  have hne : String.mk d ≠ "" := by
    intro h
    exact hd (congrArg String.data h)
  have hj : pathJoin (String.mk d) "index.html" =
      pathClean (String.mk d ++ "/" ++ "index.html") := by
    simp [pathJoin, hne]
  rw [hj]
  exact pathClean_dir_index d hd _ (by simp [String.data_append])

/-- What `http.ServeFile` opens for the name `path.Join(root, "index.html")` is that name:
`filepath.Split` followed by `http.Dir(dir).Open(file)` puts the cleaned path together
again. -/
theorem dirFullName_index (root : String) :
    dirFullName (pathSplit (pathJoin root "index.html")).1
        (pathSplit (pathJoin root "index.html")).2 =
      pathJoin root "index.html" := by
  by_cases hroot : root = ""
  · subst hroot; decide
  · have hl : root.data ≠ [] := fun h => hroot (String.ext h)
    have hn := pathJoin_index_data root.data hl
    have hmk : String.mk root.data = root := rfl
    rw [hmk] at hn
    generalize hK : cleanSegs (decide (root.data.head? = some '/'))
      (splitAt (fun c => decide (c = '/')) root.data) [] = K at hn
    have hKfix : cleanSegs (decide (root.data.head? = some '/')) K [] = K := by
      rw [← hK]; exact cleanSegs_idem _ _
    have hKfree : ∀ seg ∈ K, ∀ c ∈ seg, decide (c = '/') = false := by
      intro seg hseg
      rw [← hK] at hseg
      rcases cleanSegs_mem _ _ _ seg hseg with h | h
      · exact splitAt_mem_noSep _ _ seg h
      · simp at h
    have hKne : ∀ seg ∈ K, seg ≠ [] := by
      have := cleanSegs_cleaned (decide (root.data.head? = some '/'))
        (splitAt (fun c => decide (c = '/')) root.data) [] (by simp [Cleaned])
      rw [hK] at this
      exact cleaned_ne_nil _ _ _ this
    have hfreeIdx : ∀ seg ∈ K ++ ["index.html".data], ∀ c ∈ seg, decide (c = '/') = false := by
      intro seg hseg
      rcases List.mem_append.1 hseg with h | h
      · exact hKfree seg h
      · simp only [List.mem_singleton] at h
        subst h
        decide
    have hsplitJoin := splitAt_joinSlash (K ++ ["index.html".data]) (by simp) hfreeIdx
    by_cases hr : root.data.head? = some '/'
    · -- a rooted path
      simp only [hr, if_true, decide_True] at hn hKfix
      have hsplit : splitAt (fun c => decide (c = '/')) (pathJoin root "index.html").data =
          ([] :: K) ++ ["index.html".data] := by
        rw [hn, List.singleton_append, splitAt_cons_sep _ '/' _ (by decide), hsplitJoin]
        rfl
      rw [pathSplit_of_split _ _ _ hsplit, dirFullName_index_name]
      have hd : dirOf ([] :: K) = '/' :: dirOf K := rfl
      have hdne : String.mk (dirOf ([] :: K)) ≠ "" := by
        intro h
        have := congrArg String.data h
        rw [hd] at this
        exact absurd this (by simp)
      simp only [hdne, if_false]
      apply String.ext
      rw [pathJoin_index_data _ (by rw [hd]; simp), hn, hd]
      simp only [List.head?_cons, if_true, decide_True]
      rw [splitAt_cons_sep _ '/' _ (by decide), splitAt_dirOf K hKfree]
      have hskip : cleanSegs true ([] :: (K ++ [[]])) [] = cleanSegs true (K ++ [[]]) [] := by
        rw [cleanSegs]; simp
      rw [hskip, cleanSegs_append_empty, hKfix]
    · -- a relative path
      simp only [hr, if_false, decide_False, List.nil_append] at hn hKfix
      have hsplit : splitAt (fun c => decide (c = '/')) (pathJoin root "index.html").data =
          K ++ ["index.html".data] := by
        rw [hn, hsplitJoin]
      rw [pathSplit_of_split _ _ _ hsplit, dirFullName_index_name]
      cases hKc : K with
      | nil =>
        subst hKc
        have hd : String.mk (dirOf []) = "" := rfl
        simp only [hd, if_true]
        apply String.ext
        rw [hn]
        decide
      | cons k rest =>
        subst hKc
        have hk : k ≠ [] := hKne k (by simp)
        obtain ⟨c, cs, rfl⟩ : ∃ c cs, k = c :: cs := by
          cases k with
          | nil => exact absurd rfl hk
          | cons c cs => exact ⟨c, cs, rfl⟩
        have hc : decide (c = '/') = false := hKfree (c :: cs) (by simp) c (by simp)
        have hc' : ¬ c = '/' := by simpa using hc
        have hd : dirOf ((c :: cs) :: rest) = c :: (cs ++ '/' :: dirOf rest) := rfl
        have hdne : String.mk (dirOf ((c :: cs) :: rest)) ≠ "" := by
          intro h
          have := congrArg String.data h
          rw [hd] at this
          exact absurd this (by simp)
        simp only [hdne, if_false]
        apply String.ext
        rw [pathJoin_index_data _ (by rw [hd]; simp), hn]
        have hhead : (dirOf ((c :: cs) :: rest)).head? ≠ some '/' := by
          rw [hd]; simpa using hc'
        simp only [hhead, if_false, decide_False, List.nil_append]
        rw [splitAt_dirOf _ hKfree, cleanSegs_append_empty, hKfix]

/-! ## Theorems: the static asset router -/

theorem data_append (a b : String) : (a ++ b).data = a.data ++ b.data := by
  cases a; cases b; rfl

theorem head_append_of_head {a : String} (b : String) (h : a.data.head? = some '/') :
    (a ++ b).data.head? = some '/' := by
  rw [data_append]
  cases ha : a.data with
  | nil => simp [ha] at h
  | cons c cs => simpa [ha] using h

theorem get_ok (r : Router) (pattern : String) (h : Handler)
    (hp : pattern.data.head? = some '/') :
    r.Get pattern h = .ok (r.set "GET" pattern h) := by
  simp [Router.Get, hp]

theorem endsWithSlash_append_slash (p : String) : endsWithSlash (p ++ "/") = true := by
  simp [endsWithSlash, data_append]

theorem registerWildcard_ok (r0 : Router) (pub root : String) (fs : FileHandler)
    (hn : (registerWildcard r0 pub root fs).panicked = none) :
    r0.Get (pub ++ "*") (.spaFallback pub root fs) = .ok (registerWildcard r0 pub root fs).router ∧
      (registerWildcard r0 pub root fs).router.getLast? =
        some ⟨"GET", pub ++ "*", .spaFallback pub root fs⟩ := by
  unfold registerWildcard at *
  cases hg : r0.Get (pub ++ "*") (.spaFallback pub root fs) with
  | error e => simp [hg] at hn
  | ok r2 =>
    refine ⟨rfl, ?_⟩
    unfold Router.Get at hg
    split at hg
    · cases hg
      simp [Router.set]
    · cases hg

theorem replaceFirst_of_hasPrefix (s pre new : String) (hne : pre.data ≠ [])
    (h : hasPrefix s pre = true) : replaceFirst s pre new = new ++ trimPrefix s pre := by
  unfold replaceFirst trimPrefix
  simp only [hne, if_false, h, if_true]
  unfold hasPrefix at h
  apply String.ext
  rw [data_append]
  cases hs : s.data with
  | nil =>
    rw [hs] at h
    cases hp : pre.data with
    | nil => exact absurd hp hne
    | cons c cs => rw [hp] at h; simp at h
  | cons c cs =>
    rw [hs] at h
    simp [replaceFirstChars, h]

theorem pathClean_append_slash (p : String) (hp : p.data ≠ []) :
    pathClean (p ++ "/") = pathClean p := by
  apply String.ext
  have hd : (p ++ "/").data = p.data ++ '/' :: [] := by rw [data_append]
  have hhead : (p.data ++ '/' :: []).head? = p.data.head? := by
    cases h : p.data with
    | nil => exact absurd h hp
    | cons c cs => rfl
  have hnil : splitAt (fun c => decide (c = '/')) [] = [[]] := rfl
  rw [pathClean_data, pathClean_data, hd, hhead, splitAt_append _ '/' (by decide), hnil,
    cleanSegs_append_empty]

theorem hexEscapeChars_ascii : ∀ l : List Char, (∀ c ∈ l, c.toNat < 128) →
    hexEscapeChars l = l := by
  intro l
  induction l with
  | nil => intro _; rfl
  | cons c cs ih =>
    intro h
    simp [hexEscapeChars, h c (by simp), ih (fun x hx => h x (by simp [hx]))]

theorem cutQuery_none : ∀ l : List Char, (∀ c ∈ l, c ≠ '?') → cutQuery l = (l, []) := by
  intro l
  induction l with
  | nil => intro _; rfl
  | cons c cs ih =>
    intro h
    simp [cutQuery, h c (by simp), ih (fun x hx => h x (by simp [hx]))]

/-- The Location that `http.Redirect` sends for the target `p + "/"` is that target when `p`
is a cleaned path of ASCII characters without a question mark. -/
theorem redirect_location_clean (env : Env) (req : Request) (p : String) (code : Nat)
    (hhead : p.data.head? = some '/') (hend : endsWithSlash p = false)
    (hclean : pathClean p = p) (hchars : ∀ c ∈ p.data, c.toNat < 128 ∧ c ≠ '?') :
    (httpRedirect env req (p ++ "/") code).location = some (p ++ "/") := by
  have hpne : p.data ≠ [] := by
    intro h; rw [h] at hhead; simp at hhead
  have hurl : (p ++ "/").data = p.data ++ ['/'] := by rw [data_append]
  have htarget : redirectTarget env req (p ++ "/") = p ++ "/" := by
    unfold redirectTarget
    split
    · have hh : (p ++ "/").data.head? = some '/' := head_append_of_head "/" hhead
      have hne : p ++ "/" ≠ "" := by
        intro h
        have := congrArg String.data h
        rw [hurl] at this
        simp at this
      have hcut : cutQuery (p ++ "/").data = ((p ++ "/").data, []) := by
        apply cutQuery_none
        intro c hc
        rw [hurl] at hc
        rcases List.mem_append.1 hc with h | h
        · exact (hchars c h).2
        · simp at h; subst h; decide
      have hmk : String.mk (p ++ "/").data = p ++ "/" := rfl
      simp only [hne, hh, ne_eq, not_true_eq_false, or_self, if_false, hcut, hmk,
        pathClean_append_slash p hpne, hclean, endsWithSlash_append_slash, hend,
        Bool.false_eq_true, not_false_eq_true, and_self, if_true]
      apply String.ext
      simp [data_append]
    · rfl
  have hesc : hexEscapeNonASCII (p ++ "/") = p ++ "/" := by
    unfold hexEscapeNonASCII
    rw [hexEscapeChars_ascii]
    intro c hc
    rw [hurl] at hc
    rcases List.mem_append.1 hc with h | h
    · exact (hchars c h).1
    · simp at h; subst h; decide
  simp [httpRedirect, htarget, hesc]

theorem serveContent_unconditional (r : Request) (c : String) (m : Nat)
    (h : r.unconditional = true) : serveContent r c m = ⟨200, none, .content c⟩ := by
  simp only [Request.unconditional, Bool.and_eq_true, Option.isNone_iff_eq_none] at h
  obtain ⟨⟨⟨⟨h1, h2⟩, h3⟩, h4⟩, h5⟩ := h
  simp [serveContent, checkPreconditions, checkIfMatch, checkIfUnmodifiedSince,
    checkIfNoneMatch, checkIfModifiedSince, effectiveRange, parseRange, h1, h2, h3, h4, h5]

/-- C6 as stated fails for a root that is missing in another way than `os.IsNotExist`
covers: the root `static/app.js/sub` lies below a regular file, `os.Stat` fails with ENOTDIR,
line 116 lets it pass and `fileServer` returns with both routes registered; likewise for the
root `static/app.js`, which is a regular file and no directory. -/
theorem fileServer_accepts_root_below_file :
    exampleEnv.Abs "static/app.js/sub" = "/srv/static/app.js/sub" ∧
      exampleEnv.Stat "/srv/static/app.js/sub" = .error .notDir ∧
      fileServer exampleEnv [] "/static" "static/app.js/sub" =
        ⟨[⟨"GET", "/static", .redirect "/static/" 301⟩,
          ⟨"GET", "/static/*", .spaFallback "/static/" "/srv/static/app.js/sub"
            (.stripPrefix "/static" (.fileServer "/srv/static/app.js/sub"))⟩], none⟩ ∧
      exampleEnv.Stat "/srv/static/app.js" = .ok (.file "console.log(1)" 1700000000) ∧
      (fileServer exampleEnv [] "/static" "static/app.js").panicked = none := by
  decide

/-- C6, amended: `fileServer` panics before it registers any route for every prefix that
contains one of the characters `{`, `}`, `*`, whatever the root, and for every root of which
`os.Stat` reports that it does not exist (`os.IsNotExist`), whatever the prefix; and the
outcome is a function of the prefix and of what the file system answers for the root: two
environments that agree there give the same outcome. -/
theorem fileServer_fails_fast (env : Env) (r : Router) (public static : String) :
    (containsAny public "{}*" = true →
      fileServer env r public static =
        ⟨r, some (.msg "FileServer does not permit URL parameters.")⟩) ∧
    (isNotExist (env.Stat (env.Abs static)) = true →
      (fileServer env r public static).router = r ∧
      ((fileServer env r public static).panicked =
          some (.msg "FileServer does not permit URL parameters.") ∨
        (fileServer env r public static).panicked =
          some (.msg "Static Documents Directory Not Found"))) ∧
    (∀ env2 : Env, env2.Abs static = env.Abs static →
      env2.Stat (env.Abs static) = env.Stat (env.Abs static) →
      fileServer env2 r public static = fileServer env r public static) := by
  refine ⟨?_, ?_, ?_⟩
  · intro h
    simp [fileServer, h]
  · intro h
    by_cases hw : containsAny public "{}*" = true
    · simp [fileServer, hw]
    · simp [fileServer, hw, h]
  · intro env2 habs hstat
    simp only [fileServer, habs, hstat]

/-- Witness for C6: a prefix with a star, and a root that does not exist. -/
theorem fileServer_fails_fast_witness :
    fileServer exampleEnv [] "/static/*" "static/" =
        ⟨[], some (.msg "FileServer does not permit URL parameters.")⟩ ∧
      (fileServer exampleEnv [] "/static" "nowhere/").router = [] ∧
      (fileServer exampleEnv [] "/static" "nowhere/").panicked =
        some (.msg "Static Documents Directory Not Found") :=
  ⟨(fileServer_fails_fast exampleEnv [] "/static/*" "static/").1 (by decide),
   ((fileServer_fails_fast exampleEnv [] "/static" "nowhere/").2.1 (by decide)).1,
   by decide⟩

/-- C7 as stated fails: with the root present, the empty prefix panics in the index
expression `public[len(public)-1]` (index -1 of a string of length 0), and the prefix
`static`, which has none of the three characters, panics in chi when the route is
registered; in both cases no route is registered. -/
theorem fileServer_panics_without_leading_slash :
    containsAny "" "{}*" = false ∧ containsAny "static" "{}*" = false ∧
      isNotExist (exampleEnv.Stat (exampleEnv.Abs "static/")) = false ∧
      fileServer exampleEnv [] "" "static/" = ⟨[], some (.indexOutOfRange (-1) 0)⟩ ∧
      fileServer exampleEnv [] "static" "static/" =
        ⟨[], some (.chiPatternMustBeginWithSlash "static")⟩ := by
  decide

/-- C7, amended: for every prefix that begins with a slash and contains none of `{`, `}`,
`*`, together with a root that exists, `fileServer` returns without a panic with its routes
registered: for a prefix other than `/` that does not end with a slash, the redirect route
at the prefix and then the wildcard route at the prefix followed by `/*`; otherwise the
wildcard route at the prefix followed by `*`; and nothing else is changed in the table. -/
theorem fileServer_succeeds (env : Env) (r : Router) (public static : String)
    (hslash : public.data.head? = some '/')
    (hwild : containsAny public "{}*" = false)
    (hroot : isNotExist (env.Stat (env.Abs static)) = false) :
    fileServer env r public static =
      if public ≠ "/" ∧ endsWithSlash public = false then
        ⟨(r.set "GET" public (.redirect (public ++ "/") 301)).set "GET" (public ++ "/" ++ "*")
          (.spaFallback (public ++ "/") (env.Abs static)
            (.stripPrefix public (.fileServer (env.Abs static)))), none⟩
      else
        ⟨r.set "GET" (public ++ "*")
          (.spaFallback public (env.Abs static)
            (.stripPrefix public (.fileServer (env.Abs static)))), none⟩ := by
  have hstar : ∀ q : String, q.data.head? = some '/' → ∀ (r0 : Router) (h : Handler),
      r0.Get (q ++ "*") h = .ok (r0.set "GET" (q ++ "*") h) :=
    fun q hq r0 h => get_ok r0 _ h (head_append_of_head "*" hq)
  simp only [fileServer, hwild, hroot]
  by_cases h1 : public = "/"
  · subst h1
    simp [registerWildcard, Router.Get]
  · cases hl : public.data.getLast? with
    | none =>
      have : public.data = [] := by simpa using hl
      simp [this] at hslash
    | some c =>
      by_cases hc : c = '/'
      · have hends : endsWithSlash public = true := by simp [endsWithSlash, hl, hc]
        simp [h1, hl, hc, registerWildcard, hstar public hslash, hends]
      · have hends : endsWithSlash public = false := by simp [endsWithSlash, hl, hc]
        simp [h1, hl, hc, registerWildcard, get_ok r public _ hslash,
          hstar (public ++ "/") (head_append_of_head "/" hslash), hends,
          StatusMovedPermanently]

/-- Witness for the amended C7: the call of line 30, `fileServer(router, "/static", "static/")`,
on a table that already holds the route `GET /`. -/
theorem fileServer_succeeds_witness :
    fileServer exampleEnv [⟨"GET", "/", .media "Index"⟩] "/static" "static/" =
      ⟨[⟨"GET", "/", .media "Index"⟩,
        ⟨"GET", "/static", .redirect "/static/" 301⟩,
        ⟨"GET", "/static/*", .spaFallback "/static/" "/srv/static"
          (.stripPrefix "/static" (.fileServer "/srv/static"))⟩], none⟩ :=
  (fileServer_succeeds exampleEnv [⟨"GET", "/", .media "Index"⟩] "/static" "static/"
    (by decide) (by decide) (by decide)).trans (by decide)

/-- C8 as stated fails in two places. The redirect route does not always answer with a
redirect to `p + "/"`: for the accepted prefix `/a//b` the handler
`http.RedirectHandler("/a//b/", 301)` sends the cleaned Location `/a/b/`, for `/..?a` it
sends `/?a/`, and for a prefix outside ASCII the Location is percent-escaped. And the last
sentence fails: for the accepted prefix `/static` the wildcard route is `/static/*` and the
handler replaces `/static/`, but the prefix that `http.StripPrefix` strips is `/static`, which
does not end with a slash (line 120 runs before line 124). -/
theorem redirect_and_stripPrefix_counterexamples :
    (fileServer exampleEnv [] "/a//b" "static/").panicked = none ∧
      (fileServer exampleEnv [] "/a//b" "static/").router.head? =
        some ⟨"GET", "/a//b", .redirect "/a//b/" 301⟩ ∧
      ((Handler.redirect "/a//b/" 301).ServeHTTP exampleEnv (getRequest "/a//b" "")).location =
        some "/a/b/" ∧
      (fileServer exampleEnv [] "/..?a" "static/").router.head? =
        some ⟨"GET", "/..?a", .redirect "/..?a/" 301⟩ ∧
      ((Handler.redirect "/..?a/" 301).ServeHTTP exampleEnv (getRequest "/..?a" "")).location =
        some "/?a/" ∧
      (fileServer exampleEnv [] "/é" "static/").router.head? =
        some ⟨"GET", "/é", .redirect "/é/" 301⟩ ∧
      ((Handler.redirect "/é/" 301).ServeHTTP exampleEnv (getRequest "/é" "")).location =
        some "/%c3%a9/" ∧
      fileServer exampleEnv [] "/static" "static/" =
        ⟨[⟨"GET", "/static", .redirect "/static/" 301⟩,
          ⟨"GET", "/static/*", .spaFallback "/static/" "/srv/static"
            (.stripPrefix "/static" (.fileServer "/srv/static"))⟩], none⟩ ∧
      endsWithSlash "/static" = false := by
  decide

/-- C8, amended: for an accepted prefix `p` that is not `/` and does not end with a slash,
`fileServer` registers GET `p` with `http.RedirectHandler(p + "/", 301)`, which answers every
request with status 301 and, when `p` is a cleaned path of ASCII characters without a
question mark, with the Location `p + "/"`, and then registers the wildcard handler under
`p + "/*"`; for `p` equal to `/` or ending with a slash it registers the wildcard handler
under `p + "*"` and nothing else. In every accepted case the prefix of the wildcard route,
which is the one the handler replaces in the request URI, ends with a slash, while
`http.StripPrefix` strips `p` as it was passed. -/
theorem fileServer_routes (env : Env) (r : Router) (p static : String)
    (hacc : (fileServer env r p static).panicked = none) :
    (p ≠ "/" ∧ endsWithSlash p = false →
      (∃ r1, r.Get p (.redirect (p ++ "/") 301) = .ok r1 ∧
        r1.Get (p ++ "/" ++ "*") (.spaFallback (p ++ "/") (env.Abs static)
          (.stripPrefix p (.fileServer (env.Abs static))))
          = .ok (fileServer env r p static).router) ∧
      (∀ req : Request,
        ((Handler.redirect (p ++ "/") 301).ServeHTTP env req).status = 301) ∧
      (pathClean p = p → (∀ c ∈ p.data, c.toNat < 128 ∧ c ≠ '?') → ∀ req : Request,
        ((Handler.redirect (p ++ "/") 301).ServeHTTP env req).location = some (p ++ "/"))) ∧
    (p = "/" ∨ endsWithSlash p = true →
      r.Get (p ++ "*") (.spaFallback p (env.Abs static)
          (.stripPrefix p (.fileServer (env.Abs static))))
        = .ok (fileServer env r p static).router) ∧
    (∃ pub, endsWithSlash pub = true ∧
      (fileServer env r p static).router.getLast? =
        some ⟨"GET", pub ++ "*", .spaFallback pub (env.Abs static)
          (.stripPrefix p (.fileServer (env.Abs static)))⟩) := by
  cases hw : containsAny p "{}*" with
  | true => simp [fileServer, hw] at hacc
  | false =>
  cases hroot : isNotExist (env.Stat (env.Abs static)) with
  | true => simp [fileServer, hw, hroot] at hacc
  | false =>
  simp only [fileServer, hw, hroot, Bool.false_eq_true, if_false] at hacc ⊢
  by_cases h1 : p = "/"
  · subst h1
    simp only [ne_eq, not_true_eq_false, if_false] at hacc ⊢
    obtain ⟨hg, hlast⟩ := registerWildcard_ok _ _ _ _ hacc
    refine ⟨fun h => by simp at h, fun _ => hg, "/", by decide, hlast⟩
  · cases hl : p.data.getLast? with
    | none => simp [h1, hl] at hacc
    | some c =>
      by_cases hc : c = '/'
      · subst hc
        have hends : endsWithSlash p = true := by simp [endsWithSlash, hl]
        simp only [ne_eq, h1, not_false_eq_true, if_true, hl, not_true_eq_false,
          if_false] at hacc ⊢
        obtain ⟨hg, hlast⟩ := registerWildcard_ok _ _ _ _ hacc
        exact ⟨fun h => by simp [hends] at h, fun _ => hg, p, hends, hlast⟩
      · have hends : endsWithSlash p = false := by simp [endsWithSlash, hl, hc]
        simp only [ne_eq, h1, not_false_eq_true, if_true, hl, hc, if_false] at hacc ⊢
        cases hg1 : r.Get p (.redirect (p ++ "/") StatusMovedPermanently) with
        | error e => simp [hg1] at hacc
        | ok r1 =>
          simp only [hg1] at hacc ⊢
          obtain ⟨hg, hlast⟩ := registerWildcard_ok _ _ _ _ hacc
          have hhead : p.data.head? = some '/' := by
            unfold Router.Get at hg1
            split at hg1
            · assumption
            · cases hg1
          refine ⟨fun _ => ⟨⟨r1, hg1, hg⟩, fun req => rfl, fun hclean hchars req => ?_⟩,
            fun h => ?_, p ++ "/", endsWithSlash_append_slash p, hlast⟩
          · exact redirect_location_clean env req p 301 hhead hends hclean hchars
          · rcases h with h | h
            · simp [h1] at h
            · simp [hends] at h

/-- Witness for the amended C8: the call of line 30; the redirect route of `/static` answers
with status 301 and the Location `/static/`. -/
theorem fileServer_routes_witness :
    ((Handler.redirect ("/static" ++ "/") 301).ServeHTTP exampleEnv
        (getRequest "/static" "")).location = some ("/static" ++ "/") ∧
      ∃ pub, endsWithSlash pub = true ∧
        (fileServer exampleEnv [] "/static" "static/").router.getLast? =
          some ⟨"GET", pub ++ "*", .spaFallback pub (exampleEnv.Abs "static/")
            (.stripPrefix "/static" (.fileServer (exampleEnv.Abs "static/")))⟩ :=
  ⟨((fileServer_routes exampleEnv [] "/static" "static/" (by decide)).1
      ⟨by decide, by decide⟩).2.2 (by decide) (by decide) (getRequest "/static" ""),
   (fileServer_routes exampleEnv [] "/static" "static/" (by decide)).2.2⟩

/-- C4 as stated fails for requests whose path names no existing file under the root. For
`GET /static/missing/index.html` the handler calls `http.ServeFile`, which answers a path
ending in `/index.html` with a 301 redirect to `./`. For `GET /static/app.js/foo`, below the
regular file `app.js`, `os.Stat` fails with ENOTDIR, which `os.IsNotExist` does not cover, and
the file server answers 404. With `If-Modified-Since` the answer is 304 without a body, with
`Range` it is 206 with a part of the file. A path with a `..` element gets status 400. With an
`index.html` that cannot be read the answer is 403. And for `GET /static/a%20b` the existence
test, made on the request URI, finds the file `a%20b`, while the file server looks for
`a b` and answers 404. -/
theorem missing_path_not_always_index_html :
    exampleEnv.Stat ("/srv/static" ++ "/" ++ trimPrefix "/static/missing/index.html" "/static/")
        = .error .notExist ∧
      spaFallbackServe exampleEnv "/static/" "/srv/static" exampleFs
          (getRequest "/static/missing/index.html" "") = ⟨301, some "./", .empty⟩ ∧
      exampleEnv.Stat ("/srv/static" ++ "/" ++ trimPrefix "/static/app.js/foo" "/static/")
        = .error .notDir ∧
      spaFallbackServe exampleEnv "/static/" "/srv/static" exampleFs
          (getRequest "/static/app.js/foo" "") = httpNotFound ∧
      exampleEnv.Stat ("/srv/static" ++ "/" ++ trimPrefix "/static/missing" "/static/")
        = .error .notExist ∧
      spaFallbackServe exampleEnv "/static/" "/srv/static" exampleFs
          { getRequest "/static/missing" "" with IfModifiedSince := some 1700000000 } =
        ⟨304, none, .empty⟩ ∧
      spaFallbackServe exampleEnv "/static/" "/srv/static" exampleFs
          { getRequest "/static/missing" "" with Range := some (.ranges [.fromTo 0 (some 3)]) } =
        ⟨206, none, .content "<!do"⟩ ∧
      exampleEnv.Stat ("/srv/static" ++ "/" ++ trimPrefix "/static/a/../b" "/static/")
        = .error .notExist ∧
      spaFallbackServe exampleEnv "/static/" "/srv/static" exampleFs
          (getRequest "/static/a/../b" "") = httpError "invalid URL path" 400 ∧
      spaFallbackServe lockedEnv "/static/" "/srv/static" exampleFs
          (getRequest "/static/missing" "") = httpError "403 Forbidden" 403 ∧
      exampleEnv.Stat ("/srv/static" ++ "/" ++ trimPrefix escapedRequest.Path "/static/")
        = .error .notExist ∧
      escapedRequest.RequestURI = "/static/a%20b" ∧
      spaFallbackServe exampleEnv "/static/" "/srv/static" exampleFs escapedRequest =
        httpNotFound := by
  decide

/-- C4, amended: for every GET request without conditional headers and without `Range`,
whose request URI is its URL path, whose URL path is under the normalised static prefix,
contains no `..` element and does not end in `/index.html`, and for which `os.Stat` reports
that the file named by the path with the prefix stripped does not exist under the root: the
wildcard handler serves the root's `index.html` through `http.ServeFile` on
`path.Join(root, "index.html")`, and when that file can be opened and is a regular file the
response is its contents with status 200, not a 404 and not a redirect. -/
theorem spaFallback_serves_index (env : Env) (pub root : String) (fs : FileHandler)
    (r : Request) (c : String) (m : Nat)
    (hpub : endsWithSlash pub = true)
    (hunder : hasPrefix r.Path pub = true)
    (hplain : r.RequestURI = r.Path)
    (hmissing : env.Stat (root ++ "/" ++ trimPrefix r.Path pub) = .error .notExist)
    (hidx : hasSuffix r.Path "/index.html" = false)
    (hdots : containsDotDot r.Path = false)
    (hcond : r.unconditional = true)
    (hfile : env.Open (pathJoin root "index.html") = .ok (.file c m)) :
    spaFallbackServe env pub root fs r = ServeFile env r (pathJoin root "index.html") ∧
      spaFallbackServe env pub root fs r = ⟨200, none, .content c⟩ := by
  have hpne : pub.data ≠ [] := by
    intro h
    simp [endsWithSlash, h] at hpub
  have hname : root ++ replaceFirst r.RequestURI pub "/" =
      root ++ "/" ++ trimPrefix r.Path pub := by
    rw [hplain, replaceFirst_of_hasPrefix r.Path pub "/" hpne hunder, String.append_assoc]
  have hmiss : isNotExist (env.Stat (root ++ replaceFirst r.RequestURI pub "/")) = true := by
    rw [hname, hmissing]; rfl
  have hserve : spaFallbackServe env pub root fs r =
      ServeFile env r (pathJoin root "index.html") := by
    simp [spaFallbackServe, hmiss]
  refine ⟨hserve, ?_⟩
  have hopen : dirOpen env (pathSplit (pathJoin root "index.html")).1
      (pathSplit (pathJoin root "index.html")).2 = .ok (.file c m) := by
    simp [dirOpen, dirFullName_index, hfile]
  simp [hserve, ServeFile, hdots, serveFile, hidx, hopen, Node.isDir,
    serveContent_unconditional r c m hcond]

/-- Witness for the amended C4: `GET /static/missing` in the example file system. -/
theorem spaFallback_serves_index_witness :
    spaFallbackServe exampleEnv "/static/" "/srv/static" exampleFs
        (getRequest "/static/missing" "") =
      ⟨200, none, .content "<!doctype html>"⟩ :=
  (spaFallback_serves_index exampleEnv "/static/" "/srv/static" exampleFs
    (getRequest "/static/missing" "") "<!doctype html>" 1700000000
    (by decide) (by decide) (by decide) (by decide) (by decide) (by decide) (by decide)
    (by decide)).2

/-- C5 fails at `GET /static/app.js?v=1` with `app.js` present under the root: the file
handler `fs` would answer with the contents of `app.js`, but the existence test is made on
the request URI with its query string, `root + "/app.js?v=1"`, which does not exist, and the
wildcard handler answers with the contents of `index.html`. -/
theorem query_string_serves_index :
    exampleEnv.Stat "/srv/static/app.js" = .ok (.file "console.log(1)" 1700000000) ∧
      (getRequest "/static/app.js" "v=1").RequestURI = "/static/app.js?v=1" ∧
      (getRequest "/static/app.js" "v=1").Path = "/static/app.js" ∧
      (getRequest "/static/app.js" "v=1").RawPath = "" ∧
      (getRequest "/static/app.js" "v=1").RawQuery = "v=1" ∧
      (getRequest "/static/app.js" "v=1").unconditional = true ∧
      exampleFs.ServeHTTP exampleEnv (getRequest "/static/app.js" "v=1") =
        ⟨200, none, .content "console.log(1)"⟩ ∧
      replaceFirst "/static/app.js?v=1" "/static/" "/" = "/app.js?v=1" ∧
      spaFallbackServe exampleEnv "/static/" "/srv/static" exampleFs
          (getRequest "/static/app.js" "v=1") =
        ⟨200, none, .content "<!doctype html>"⟩ := by
  decide

/-! ## Theorems: the periodic updater -/

theorem runLoop_ticks (m : Media) (n : Nat) : ∀ u : Updater, u.looping = true →
    runLoop m u (List.replicate n .tick) =
      { u with calls := u.calls + n, trace := u.trace ++ tickTrace m u.calls n } := by
  induction n with
  | zero => intro u _; simp [runLoop, tickTrace]
  | succ n ih =>
    intro u hu
    have hstep : (loopStep m u .tick).looping = true := by simp [loopStep, hu]
    have := ih (loopStep m u .tick) hstep
    simp only [runLoop, List.replicate_succ, List.foldl_cons] at this ⊢
    rw [this]
    simp [loopStep, hu, tickTrace, tickEvents, Nat.add_assoc, Nat.add_comm 1 n]

theorem runLoop_stopped (m : Media) (fires : List Fire) : ∀ u : Updater, u.looping = false →
    runLoop m u fires = u := by
  induction fires with
  | nil => intro u _; rfl
  | cons f fs ih =>
    intro u hu
    have hstep : loopStep m u f = u := by cases f <;> simp [loopStep, hu]
    simp only [runLoop, List.foldl_cons, hstep]
    exact ih u hu

theorem runLoop_append (m : Media) (u : Updater) (a b : List Fire) :
    runLoop m u (a ++ b) = runLoop m (runLoop m u a) b := by
  simp [runLoop, List.foldl_append]

theorem attempts_tickTrace (m : Media) (n : Nat) : ∀ k,
    attempts (tickTrace m k n) = (List.range' k n).map m.UpdateYtDlp := by
  induction n with
  | zero => intro k; simp [tickTrace, attempts]
  | succ n ih =>
    intro k
    have := ih (k + 1)
    simp only [attempts] at this
    simp [tickTrace, tickEvents, attempts, List.range'_succ, List.filterMap_append, this]

theorem eachAttemptLogged_tickTrace (m : Media) (n : Nat) : ∀ k,
    eachAttemptLogged (tickTrace m k n) = true := by
  induction n with
  | zero => intro k; simp [tickTrace, eachAttemptLogged]
  | succ n ih => intro k; simp [tickTrace, tickEvents, eachAttemptLogged, ih]

/-- C3: whatever the outcomes of the update attempts, after the start and `n` ticker fires
exactly `n + 1` calls of `media.UpdateYtDlp` have been made (the trace holds call 0 to call
`n` in order), and the loop is still running with its ticker; and once the `quit` case has
fired, no later event changes the state, so no further call is made. -/
theorem updater_schedule (m : Media) (n : Nat) (before later : List Fire) :
    (runLoop m (startYtDlpUpdater m) (List.replicate n .tick)).calls = n + 1 ∧
      attempts (runLoop m (startYtDlpUpdater m) (List.replicate n .tick)).trace =
        (List.range (n + 1)).map m.UpdateYtDlp ∧
      (runLoop m (startYtDlpUpdater m) (List.replicate n .tick)).looping = true ∧
      (runLoop m (startYtDlpUpdater m) (List.replicate n .tick)).tickerStopped = false ∧
      runLoop m (startYtDlpUpdater m) (before ++ .quit :: later) =
        runLoop m (startYtDlpUpdater m) (before ++ [.quit]) := by
  have hticks := runLoop_ticks m n (startYtDlpUpdater m) rfl
  refine ⟨?_, ?_, ?_, ?_, ?_⟩
  · rw [hticks]; simp [startYtDlpUpdater, Nat.add_comm]
  · rw [hticks]
    have := attempts_tickTrace m n 1
    simp only [attempts] at this
    simp [startYtDlpUpdater, attempts, List.filterMap_append, this, List.range_eq_range',
      List.range'_succ]
  · rw [hticks]; rfl
  · rw [hticks]; rfl
  · have hq : (runLoop m (runLoop m (startYtDlpUpdater m) before) [.quit]).looping = false := by
      simp only [runLoop, List.foldl_cons, List.foldl_nil, loopStep]
      split <;> simp_all
    have hsplit : before ++ Fire.quit :: later = (before ++ [.quit]) ++ later := by simp
    rw [hsplit, runLoop_append, runLoop_append]
    exact runLoop_stopped m later _ hq

/-- C9 as stated fails on the first attempt: right after the start the trace is the version
log followed by the update attempt, and after one tick the first attempt is followed by the
second attempt, with no version log in between. -/
theorem first_attempt_not_followed_by_log :
    (startYtDlpUpdater exampleMedia).trace =
        [.versionLog "yt-dlp version: 2024.01.01", .updateAttempt true] ∧
      eachAttemptLogged (startYtDlpUpdater exampleMedia).trace = false ∧
      (runLoop exampleMedia (startYtDlpUpdater exampleMedia) [.tick]).trace =
        [.versionLog "yt-dlp version: 2024.01.01", .updateAttempt true,
         .updateAttempt false, .versionLog "yt-dlp version: 2024.06.01"] ∧
      eachAttemptLogged
        (runLoop exampleMedia (startYtDlpUpdater exampleMedia) [.tick]).trace = false := by
  decide

/-- C9, amended: the trace of the updater after the start and `n` ticker fires is the version
log made before the first attempt, the first attempt, and then for each tick an update
attempt with, right after it, the log of the version installed then; so every attempt made
on a tick, successful or not, is followed by a version log before the next attempt. -/
theorem updater_trace (m : Media) (n : Nat) :
    (runLoop m (startYtDlpUpdater m) (List.replicate n .tick)).trace =
        [.versionLog (versionLine (m.GetInstalledVersion 0)), .updateAttempt (m.UpdateYtDlp 0)]
          ++ tickTrace m 1 n ∧
      eachAttemptLogged (tickTrace m 1 n) = true := by
  refine ⟨?_, eachAttemptLogged_tickTrace m n 1⟩
  rw [runLoop_ticks m n (startYtDlpUpdater m) rfl]
  rfl

/-! ## Theorems: the lifecycle of `main` -/

theorem step_exited (s : State) (e : Ev) (h : s.proc ≠ .running) : step s e = s := by
  simp [step, h]

theorem run_append (s : State) (a b : List Ev) : run s (a ++ b) = run (run s a) b := by
  simp [run, List.foldl_append]

theorem step_forced_exit (s : State) (e : Ev)
    (hs : s.proc = .exited 1 → s.shutdownCtx = some (some .DeadlineExceeded)) :
    (step s e).proc = .exited 1 →
      (step s e).shutdownCtx = some (some .DeadlineExceeded) := by
  obtain ⟨proc, main, sigG, watcher, sigBuf, serverCtx, shutdownCtx, closed, r, c, k, lg⟩ := s
  by_cases hp : proc = .running
  · subst hp
    cases e with
    | signal σ => cases sigBuf <;> simp [step]
    | listenReturns err => by_cases h : main = .listenAndServe <;> simp [step, h]
    | connsIdle l => by_cases h : sigG = .inShutdown <;> simp [step, h]
    | deadline => rcases shutdownCtx with _ | _ | _ <;> simp [step]
    | main =>
      cases main <;> simp [step, stepMain, dropEvent, LogEvent.Msg, logInfo] <;>
        split <;> simp
    | sigG =>
      cases sigG <;> simp [step, stepSig, dropEvent] <;> split <;> simp
    | watcher =>
      cases watcher <;> simp [step, stepWatcher, LogEvent.Msg, logFatal] <;>
        split <;> simp_all
  · rw [step_exited _ e hp]; exact hs

/-- A forced exit (exit status 1) only ever happens with the shutdown context ended by its
deadline. -/
theorem forced_exit_only_after_deadline (evs : List Ev) : ∀ s : State,
    (s.proc = .exited 1 → s.shutdownCtx = some (some .DeadlineExceeded)) →
    (run s evs).proc = .exited 1 → (run s evs).shutdownCtx = some (some .DeadlineExceeded) := by
  induction evs with
  | nil => intro s hs; exact hs
  | cons e evs ih => intro s hs; exact ih (step s e) (step_forced_exit s e hs)

theorem main_blocked_on_serverCtx (n : Nat) (s : State) (hm : s.main = .waitServerCtx)
    (hc : s.serverCtx = none) : run s (List.replicate n .main) = s := by
  induction n with
  | zero => rfl
  | succ n ih =>
    have hstep : step s .main = s := by
      by_cases hp : s.proc = .running
      · simp [step, hp, stepMain, hm, hc]
      · exact step_exited s _ hp
    simpa [run, List.replicate_succ, hstep] using ih

theorem step_countersMatch (s : State) (e : Ev) (hs : countersMatch s) :
    countersMatch (step s e) := by
  obtain ⟨proc, main, sigG, watcher, sigBuf, serverCtx, shutdownCtx, closed, r, c, k, lg⟩ := s
  by_cases hp : proc = .running
  · subst hp
    cases e with
    | signal σ => cases sigBuf <;> simpa [step, countersMatch] using hs
    | listenReturns err =>
      by_cases h : main = .listenAndServe <;> simpa [step, h, countersMatch] using hs
    | connsIdle l =>
      by_cases h : sigG = .inShutdown
      · subst h
        simpa [step, countersMatch, SigPc.rank] using hs
      · simpa [step, h, countersMatch] using hs
    | deadline => rcases shutdownCtx with _ | _ | _ <;> simpa [step, countersMatch] using hs
    | main =>
      cases main <;> simp [step, stepMain, dropEvent, LogEvent.Msg, logInfo] <;>
        (try split) <;> simpa [countersMatch] using hs
    | sigG =>
      simp only [countersMatch] at hs
      cases sigG <;> simp [step, stepSig, dropEvent, countersMatch, SigPc.rank] at hs ⊢ <;>
        (try split) <;> simp_all [SigPc.rank]
    | watcher =>
      cases watcher <;> simp [step, stepWatcher, LogEvent.Msg, logFatal] <;>
        (try split) <;> simpa [countersMatch] using hs
  · rw [step_exited _ e hp]; exact hs

theorem step_rank_mono (s : State) (e : Ev) : s.sigG.rank ≤ (step s e).sigG.rank := by
  obtain ⟨proc, main, sigG, watcher, sigBuf, serverCtx, shutdownCtx, closed, r, c, k, lg⟩ := s
  by_cases hp : proc = .running
  · subst hp
    cases e with
    | signal σ => cases sigBuf <;> simp [step]
    | listenReturns err => by_cases h : main = .listenAndServe <;> simp [step, h]
    | connsIdle l =>
      by_cases h : sigG = .inShutdown
      · subst h; simp [step, SigPc.rank]
      · simp [step, h]
    | deadline => rcases shutdownCtx with _ | _ | _ <;> simp [step]
    | main =>
      cases main <;> simp [step, stepMain, dropEvent, LogEvent.Msg, logInfo] <;>
        (try split) <;> simp
    | sigG =>
      rcases shutdownCtx with _ | _ | _ <;> cases sigBuf <;> cases sigG <;>
        simp [step, stepSig, dropEvent, SigPc.rank]
    | watcher =>
      cases watcher <;> simp [step, stepWatcher, LogEvent.Msg, logFatal] <;>
        (try split) <;> simp
  · rw [step_exited _ e hp]

theorem init_countersMatch : countersMatch State.init := by
  simp [countersMatch, State.init, SigPc.rank]

theorem run_countersMatch (evs : List Ev) : ∀ s : State, countersMatch s →
    countersMatch (run s evs) := by
  induction evs with
  | nil => intro s hs; exact hs
  | cons e evs ih => intro s hs; exact ih (step s e) (step_countersMatch s e hs)

theorem run_rank_mono (evs : List Ev) : ∀ s : State, s.sigG.rank ≤ (run s evs).sigG.rank := by
  induction evs with
  | nil => intro s; exact Nat.le_refl _
  | cons e evs ih => intro s; exact Nat.le_trans (step_rank_mono s e) (ih (step s e))

theorem run_signals_buffered (sigs : List Signal) (s : State) (hb : s.sigBuf.isSome = true) :
    run s (sigs.map .signal) = s := by
  induction sigs with
  | nil => rfl
  | cons σ sigs ih =>
    have hstep : step s (.signal σ) = s := by
      by_cases hp : s.proc = .running
      · cases hbuf : s.sigBuf with
        | none => simp [hbuf] at hb
        | some x => simp [step, hp, hbuf]
      · exact step_exited s _ hp
    simpa [run, hstep] using ih

theorem step_forgetSignal (s t : State) (e : Ev) (h : s.forgetSignal = t.forgetSignal) :
    (step s e).forgetSignal = (step t e).forgetSignal := by
  obtain ⟨proc, main, sigG, watcher, sigBuf, serverCtx, shutdownCtx, closed, r, c, k, lg⟩ := s
  obtain ⟨proc2, main2, sigG2, watcher2, sigBuf2, serverCtx2, shutdownCtx2, closed2, r2, c2, k2,
    lg2⟩ := t
  simp only [State.forgetSignal, State.mk.injEq] at h
  obtain ⟨rfl, rfl, rfl, rfl, hbuf, rfl, rfl, rfl, rfl, rfl, rfl, rfl⟩ := h
  by_cases hp : proc = .running
  · subst hp
    cases e with
    | signal σ =>
      cases sigBuf <;> cases sigBuf2 <;> simp_all [step, State.forgetSignal]
    | listenReturns err =>
      by_cases h : main = .listenAndServe <;> simp [step, h, State.forgetSignal, hbuf]
    | connsIdle l =>
      by_cases h : sigG = .inShutdown <;> simp [step, h, State.forgetSignal, hbuf]
    | deadline =>
      rcases shutdownCtx with _ | _ | _ <;> simp [step, State.forgetSignal, hbuf]
    | main =>
      cases main <;> simp [step, stepMain, dropEvent, LogEvent.Msg, logInfo] <;>
        (try split) <;> simp [State.forgetSignal, hbuf]
    | sigG =>
      rcases shutdownCtx with _ | _ | _ <;> cases sigBuf <;> cases sigBuf2 <;>
        simp at hbuf <;> cases sigG <;>
        simp [step, stepSig, dropEvent, State.forgetSignal]
    | watcher =>
      cases watcher <;> simp [step, stepWatcher, LogEvent.Msg, logFatal] <;>
        (try split) <;> simp [State.forgetSignal, hbuf]
  · rw [step_exited _ e hp, step_exited _ e hp]
    simp [State.forgetSignal, hbuf]

theorem run_forgetSignal (evs : List Ev) : ∀ s t : State, s.forgetSignal = t.forgetSignal →
    (run s evs).forgetSignal = (run t evs).forgetSignal := by
  induction evs with
  | nil => intro s t h; exact h
  | cons e evs ih => intro s t h; exact ih (step s e) (step t e) (step_forgetSignal s t e h)

theorem signal_forgetSignal (s : State) (σ τ : Signal) :
    (step s (.signal σ)).forgetSignal = (step s (.signal τ)).forgetSignal := by
  by_cases hp : s.proc = .running
  · cases hb : s.sigBuf <;> simp [step, hp, hb, State.forgetSignal]
  · rw [step_exited _ _ hp, step_exited _ _ hp]

theorem step_ctx_rank (s : State) (e : Ev)
    (h : s.shutdownCtx ≠ none → 2 ≤ s.sigG.rank) :
    (step s e).shutdownCtx ≠ none → 2 ≤ (step s e).sigG.rank := by
  obtain ⟨proc, main, sigG, watcher, sigBuf, serverCtx, shutdownCtx, closed, r, c, k, lg⟩ := s
  simp only at h
  by_cases hrun : proc = .running
  · subst hrun
    cases e with
    | signal σ => cases sigBuf <;> simpa [step] using h
    | listenReturns err =>
      by_cases hm : main = .listenAndServe <;> simpa [step, hm] using h
    | connsIdle l =>
      by_cases hm : sigG = .inShutdown
      · subst hm; simp [step, SigPc.rank]
      · simpa [step, hm] using h
    | deadline =>
      rcases shutdownCtx with _ | _ | _ <;> simp [step] <;> simpa using h
    | main =>
      cases main <;> simp [step, stepMain, dropEvent, LogEvent.Msg, logInfo] <;>
        (try split) <;> simpa using h
    | sigG =>
      rcases shutdownCtx with _ | _ | _ <;> cases sigBuf <;> cases sigG <;>
        simp [step, stepSig, dropEvent, SigPc.rank] at h ⊢
    | watcher =>
      cases watcher <;> simp [step, stepWatcher, LogEvent.Msg, logFatal] <;>
        (try split) <;> simpa using h
  · rw [step_exited _ e hrun]; exact h

theorem run_ctx_rank (evs : List Ev) : ∀ s : State,
    (s.shutdownCtx ≠ none → 2 ≤ s.sigG.rank) →
    (run s evs).shutdownCtx ≠ none → 2 ≤ (run s evs).sigG.rank := by
  induction evs with
  | nil => intro s h; exact h
  | cons e evs ih => intro s h; exact ih (step s e) (step_ctx_rank s e h)

theorem step_after_cancel (s : State) (e : Ev)
    (hc : s.shutdownCtx = some (some .Canceled)) (hr : 2 ≤ s.sigG.rank)
    (hp : s.proc ≠ .exited 1) :
    (step s e).shutdownCtx = some (some .Canceled) ∧ (step s e).proc ≠ .exited 1 := by
  obtain ⟨proc, main, sigG, watcher, sigBuf, serverCtx, shutdownCtx, closed, r, c, k, lg⟩ := s
  simp only at hc hp hr
  subst hc
  by_cases hrun : proc = .running
  · subst hrun
    cases e with
    | signal σ => cases sigBuf <;> simp [step]
    | listenReturns err => by_cases h : main = .listenAndServe <;> simp [step, h]
    | connsIdle l => by_cases h : sigG = .inShutdown <;> simp [step, h]
    | deadline => simp [step]
    | main =>
      cases main <;> simp [step, stepMain, dropEvent, LogEvent.Msg, logInfo] <;>
        split <;> simp
    | sigG =>
      cases sigBuf <;> cases sigG <;>
        simp [step, stepSig, dropEvent, cancelWith, SigPc.rank] at hr ⊢
    | watcher =>
      cases watcher <;> simp [step, stepWatcher, LogEvent.Msg, logFatal]
  · rw [step_exited _ e hrun]; exact ⟨rfl, hp⟩

theorem run_after_cancel (evs : List Ev) : ∀ s : State,
    s.shutdownCtx = some (some .Canceled) → 2 ≤ s.sigG.rank → s.proc ≠ .exited 1 →
    (run s evs).proc ≠ .exited 1 := by
  induction evs with
  | nil => intro s _ _ hp; exact hp
  | cons e evs ih =>
    intro s hc hr hp
    exact ih (step s e) (step_after_cancel s e hc hr hp).1
      (Nat.le_trans hr (step_rank_mono s e)) (step_after_cancel s e hc hr hp).2

/-- Once the shutdown context has ended by cancellation, no later event forces an exit: the
deadline has no effect on a context that is done, and the watcher exits only on
`DeadlineExceeded`. -/
theorem no_forced_exit_after_cancel (before later : List Ev)
    (hc : (run State.init before).shutdownCtx = some (some .Canceled)) :
    (run State.init (before ++ later)).proc ≠ .exited 1 := by
  rw [run_append]
  refine run_after_cancel later _ hc ?_ ?_
  · exact run_ctx_rank before State.init (by simp [State.init]) (by rw [hc]; simp)
  · intro hp
    have := forced_exit_only_after_deadline before State.init (by simp [State.init]) hp
    rw [hc] at this
    cases this

theorem step_forgetBuffer (s t : State) (e : Ev) (hs : s.sigG ≠ .recvSig)
    (h : s.forgetBuffer = t.forgetBuffer) :
    (step s e).forgetBuffer = (step t e).forgetBuffer ∧ (step s e).sigG ≠ .recvSig := by
  obtain ⟨proc, main, sigG, watcher, sigBuf, serverCtx, shutdownCtx, closed, r, c, k, lg⟩ := s
  obtain ⟨proc2, main2, sigG2, watcher2, sigBuf2, serverCtx2, shutdownCtx2, closed2, r2, c2, k2,
    lg2⟩ := t
  simp only [State.forgetBuffer, State.mk.injEq] at h
  obtain ⟨rfl, rfl, rfl, rfl, -, rfl, rfl, rfl, rfl, rfl, rfl, rfl⟩ := h
  simp only at hs
  by_cases hp : proc = .running
  · subst hp
    cases e with
    | signal σ =>
      cases sigBuf <;> cases sigBuf2 <;> simp [step, State.forgetBuffer, hs]
    | listenReturns err =>
      by_cases h : main = .listenAndServe <;> simp [step, h, State.forgetBuffer, hs]
    | connsIdle l =>
      by_cases h : sigG = .inShutdown <;> simp [step, h, State.forgetBuffer, hs]
    | deadline =>
      rcases shutdownCtx with _ | _ | _ <;> simp [step, State.forgetBuffer, hs]
    | main =>
      cases main <;> simp [step, stepMain, dropEvent, LogEvent.Msg, logInfo] <;>
        (try split) <;> simp [State.forgetBuffer, hs]
    | sigG =>
      rcases shutdownCtx with _ | _ | _ <;> cases sigG <;>
        simp [step, stepSig, dropEvent, State.forgetBuffer] at hs ⊢
    | watcher =>
      cases watcher <;> simp [step, stepWatcher, LogEvent.Msg, logFatal] <;>
        (try split) <;> simp [State.forgetBuffer, hs]
  · rw [step_exited _ e hp, step_exited _ e hp]
    simp [State.forgetBuffer, hs]

theorem run_forgetBuffer (evs : List Ev) : ∀ s t : State, s.sigG ≠ .recvSig →
    s.forgetBuffer = t.forgetBuffer → (run s evs).forgetBuffer = (run t evs).forgetBuffer := by
  induction evs with
  | nil => intro s t _ h; exact h
  | cons e evs ih =>
    intro s t hs h
    exact ih (step s e) (step t e) (step_forgetBuffer s t e hs h).2
      (step_forgetBuffer s t e hs h).1

theorem signal_forgetBuffer (s : State) (σ : Signal) :
    (step s (.signal σ)).forgetBuffer = s.forgetBuffer ∧
      (step s (.signal σ)).sigG = s.sigG := by
  by_cases hp : s.proc = .running
  · cases hb : s.sigBuf <;> simp [step, hp, hb, State.forgetBuffer]
  · rw [step_exited _ _ hp]; exact ⟨rfl, rfl⟩

theorem step_effectsMatch (s : State) (e : Ev) (hs : effectsMatch s) :
    effectsMatch (step s e) := by
  obtain ⟨proc, main, sigG, watcher, sigBuf, serverCtx, shutdownCtx, closed, r, c, k, lg⟩ := s
  by_cases hp : proc = .running
  · subst hp
    cases e with
    | signal σ => cases sigBuf <;> simpa [step, effectsMatch] using hs
    | listenReturns err =>
      by_cases h : main = .listenAndServe <;> simpa [step, h, effectsMatch] using hs
    | connsIdle l =>
      by_cases h : sigG = .inShutdown
      · subst h
        simpa [step, effectsMatch, SigPc.rank] using hs
      · simpa [step, h, effectsMatch] using hs
    | deadline =>
      rcases shutdownCtx with _ | _ | _ <;> simpa [step, effectsMatch] using hs
    | main =>
      cases main <;> simp [step, stepMain, dropEvent, LogEvent.Msg, logInfo] <;>
        (try split) <;> simpa [effectsMatch] using hs
    | sigG =>
      simp only [effectsMatch] at hs
      rcases shutdownCtx with _ | _ | _ <;> cases sigBuf <;> cases sigG <;>
        simp [step, stepSig, dropEvent, effectsMatch, SigPc.rank] at hs ⊢ <;> simp_all
    | watcher =>
      simp only [effectsMatch] at hs
      rcases shutdownCtx with _ | _ | _ | _ <;> cases watcher <;>
        simp [step, stepWatcher, LogEvent.Msg, logFatal, effectsMatch] at hs ⊢ <;> simp_all
  · rw [step_exited _ e hp]; exact hs

theorem run_effectsMatch (evs : List Ev) : ∀ s : State, effectsMatch s →
    effectsMatch (run s evs) := by
  induction evs with
  | nil => intro s hs; exact hs
  | cons e evs ih => intro s hs; exact ih (step s e) (step_effectsMatch s e hs)

theorem init_effectsMatch : effectsMatch State.init := by
  simp [effectsMatch, State.init, SigPc.rank]

theorem step_onTrack (s : State) (e : Ev) (he : e ≠ .deadline) (hs : onTrack s) :
    onTrack (step s e) := by
  by_cases h4 : 4 ≤ s.sigG.rank
  · exact Or.inl (Nat.le_trans h4 (step_rank_mono s e))
  · rcases hs with hs | ⟨hp, hctx, hsrv, hmain⟩
    · exact absurd hs h4
    · obtain ⟨proc, main, sigG, watcher, sigBuf, serverCtx, shutdownCtx, closed, r, c, k, lg⟩ := s
      simp only at hp hctx hsrv hmain h4
      subst hp hsrv
      cases e with
      | signal σ => cases sigBuf <;> simp [step, onTrack, hctx, hmain]
      | listenReturns err =>
        by_cases h : main = .listenAndServe
        · subst h; simp [step, onTrack, hctx, MainPc.waiting]
        · simp [step, h, onTrack, hctx, hmain]
      | connsIdle l =>
        by_cases h : sigG = .inShutdown
        · subst h; simp [SigPc.rank] at h4
        · simp [step, h, onTrack, hctx, hmain]
      | deadline => exact absurd rfl he
      | main =>
        cases main <;> simp [MainPc.waiting] at hmain <;>
          simp [step, stepMain, dropEvent, onTrack, hctx, MainPc.waiting]
        all_goals (split <;> simp [hctx, MainPc.waiting])
      | sigG =>
        rcases shutdownCtx with _ | _ | _ <;> cases sigBuf <;> cases sigG <;>
          simp [step, stepSig, dropEvent, onTrack, SigPc.rank, hmain] at h4 hctx ⊢ <;>
          simp_all
      | watcher =>
        rcases shutdownCtx with _ | _ | _ | _ <;> cases watcher <;>
          simp [step, stepWatcher, LogEvent.Msg, logFatal, onTrack, hmain] at hctx ⊢

theorem step_signalPending (s : State) (e : Ev) (hs : signalPending s) :
    signalPending (step s e) := by
  rcases hs with hs | hs
  · exact Or.inl (Nat.le_trans hs (step_rank_mono s e))
  · obtain ⟨proc, main, sigG, watcher, sigBuf, serverCtx, shutdownCtx, closed, r, c, k, lg⟩ := s
    simp only at hs
    cases hb : sigBuf with
    | none => simp [hb] at hs
    | some x =>
      subst hb
      by_cases hp : proc = .running
      · subst hp
        cases e with
        | signal σ => simp [step, signalPending]
        | listenReturns err =>
          by_cases h : main = .listenAndServe <;> simp [step, h, signalPending]
        | connsIdle l =>
          by_cases h : sigG = .inShutdown <;> simp [step, h, signalPending]
        | deadline =>
          rcases shutdownCtx with _ | _ | _ <;> simp [step, signalPending]
        | main =>
          cases main <;> simp [step, stepMain, dropEvent, LogEvent.Msg, logInfo] <;>
            (try split) <;> simp [signalPending]
        | sigG =>
          rcases shutdownCtx with _ | _ | _ <;> cases sigG <;>
            simp [step, stepSig, dropEvent, signalPending, SigPc.rank]
        | watcher =>
          cases watcher <;> simp [step, stepWatcher, LogEvent.Msg, logFatal] <;>
            (try split) <;> simp [signalPending]
      · rw [step_exited _ e hp]; exact Or.inr rfl

theorem step_sigG_progress (s : State) (ht : onTrack s) (hpend : signalPending s) :
    min 4 (s.sigG.rank + 1) ≤ (step s .sigG).sigG.rank := by
  by_cases h4 : 4 ≤ s.sigG.rank
  · have := step_rank_mono s .sigG
    omega
  · rcases ht with ht | ⟨hp, -, -, -⟩
    · exact absurd ht h4
    · obtain ⟨proc, main, sigG, watcher, sigBuf, serverCtx, shutdownCtx, closed, r, c, k, lg⟩ := s
      simp only at hp h4
      subst hp
      rcases hpend with hpend | hpend
      · cases sigG <;> simp [step, stepSig, SigPc.rank] at hpend h4 ⊢
      · simp only at hpend
        cases hb : sigBuf with
        | none => simp [hb] at hpend
        | some x => cases sigG <;> simp [step, stepSig, SigPc.rank] at h4 ⊢

theorem run_progress (evs : List Ev) : ∀ s : State, Ev.deadline ∉ evs → onTrack s →
    signalPending s → min 4 (s.sigG.rank + evs.count .sigG) ≤ (run s evs).sigG.rank := by
  induction evs with
  | nil => intro s _ _ _; simp [run]
  | cons e evs ih =>
    intro s hd ht hpend
    have he : e ≠ .deadline := fun h => hd (by simp [h])
    have hd' : Ev.deadline ∉ evs := fun h => hd (by simp [h])
    have hrec := ih (step s e) hd' (step_onTrack s e he ht) (step_signalPending s e hpend)
    have hrun : run s (e :: evs) = run (step s e) evs := rfl
    rw [hrun]
    by_cases hsig : e = .sigG
    · subst hsig
      have := step_sigG_progress s ht hpend
      simp only [List.count_cons_self]
      omega
    · have hmono := step_rank_mono s e
      have hcount : (e :: evs).count .sigG = evs.count .sigG := by
        rw [List.count_cons_of_ne]
        exact fun h => hsig h.symm
      rw [hcount]
      omega

theorem run_onTrack (evs : List Ev) : ∀ s : State, Ev.deadline ∉ evs → onTrack s →
    onTrack (run s evs) := by
  induction evs with
  | nil => intro s _ hs; exact hs
  | cons e evs ih =>
    intro s hd hs
    exact ih (step s e) (fun h => hd (by simp [h]))
      (step_onTrack s e (fun h => hd (by simp [h])) hs)

theorem step_signal_pending (s : State) (σ : Signal) (ht : onTrack s) :
    signalPending (step s (.signal σ)) := by
  rcases ht with ht | ⟨hp, -, -, -⟩
  · exact Or.inl (Nat.le_trans (by omega) (step_rank_mono s _))
  · cases hb : s.sigBuf <;> simp [step, hp, hb, signalPending]

theorem step_quiet (s : State) (e : Ev) (he : ∀ σ, e ≠ .signal σ) (hs : quiet s) :
    quiet (step s e) := by
  obtain ⟨proc, main, sigG, watcher, sigBuf, serverCtx, shutdownCtx, closed, r, c, k, lg⟩ := s
  obtain ⟨h1, h2, h3, h4, h5, h6, h7, h8, h9, h10, h11⟩ := hs
  simp only at h1 h2 h3 h4 h5 h6 h7 h8 h9 h10 h11
  subst h1 h2 h3 h4 h5 h6 h7 h8 h9 h10
  cases e with
  | signal σ => exact absurd rfl (he σ)
  | listenReturns err =>
    by_cases h : main = .listenAndServe
    · subst h; simp [step, quiet, MainPc.waiting]
    · simp [step, h, quiet, h11]
  | connsIdle l => simp [step, quiet, h11]
  | deadline => simp [step, quiet, h11]
  | main =>
    cases main <;> simp [MainPc.waiting] at h11 <;>
      simp [step, stepMain, dropEvent, quiet, MainPc.waiting]
  | sigG => simp [step, stepSig, quiet, h11]
  | watcher => simp [step, stepWatcher, quiet, h11]

theorem run_quiet (evs : List Ev) : ∀ s : State, (∀ σ, Ev.signal σ ∉ evs) → quiet s →
    quiet (run s evs) := by
  induction evs with
  | nil => intro s _ hs; exact hs
  | cons e evs ih =>
    intro s hn hs
    exact ih (step s e) (fun σ h => hn σ (by simp [h]))
      (step_quiet s e (fun σ h => hn σ (by simp [h])) hs)

/-- C1 fails on `timedOutSchedule`, where `server.Shutdown` does not finish within the
window: when the deadline passes the signal goroutine is still inside `Shutdown`, which then
returns the deadline error; `log.Fatal().Err(err)` on line 71 writes nothing and exits
nothing, so `serverStopCtx()` is called, and the main goroutine passes `<-serverCtx.Done()`,
logs "Shutdown complete" and returns with exit status 0 before the watcher has run: no fatal
line is logged and the exit is not forced. On `inTimeSchedule`, where `Shutdown` returns nil
and `serverStopCtx()` is called before the deadline passes, the shutdown context ends with
`Canceled`, the watcher does nothing and the exit is the clean one. In every run, an exit
with status 1 happens only with the shutdown context ended by its deadline, and once the
shutdown context has ended with `Canceled` no later event forces an exit. -/
theorem timed_out_shutdown_can_exit_cleanly :
    (run State.init (timedOutSchedule.take 6)).sigG = .inShutdown ∧
      (run State.init (timedOutSchedule.take 6)).shutdownCtx =
        some (some .DeadlineExceeded) ∧
      run State.init timedOutSchedule =
        { proc := .exited 0, main := .returned, sigG := .deferredCancel, watcher := .waitDone,
          sigBuf := none, serverCtx := some .Canceled,
          shutdownCtx := some (some .DeadlineExceeded), serverClosed := true,
          sigReads := 1, ctxCreated := 1, shutdownCalls := 1,
          log := [⟨.info, none, "Shutdown complete"⟩] } ∧
      run State.init inTimeSchedule =
        { proc := .exited 0, main := .returned, sigG := .deferredCancel, watcher := .done,
          sigBuf := none, serverCtx := some .Canceled,
          shutdownCtx := some (some .Canceled), serverClosed := true,
          sigReads := 1, ctxCreated := 1, shutdownCalls := 1,
          log := [⟨.info, none, "Shutdown complete"⟩] } ∧
      (∀ evs : List Ev, (run State.init evs).proc = .exited 1 →
        (run State.init evs).shutdownCtx = some (some .DeadlineExceeded)) ∧
      (∀ before later : List Ev,
        (run State.init before).shutdownCtx = some (some .Canceled) →
        (run State.init (before ++ later)).proc ≠ .exited 1) :=
  ⟨by decide, by decide, by decide, by decide,
   fun evs => forced_exit_only_after_deadline evs State.init (by decide),
   no_forced_exit_after_cancel⟩

/-- C2 fails for every error of `server.ListenAndServe` other than `http.ErrServerClosed`:
the statement `log.Fatal().Err(err)` on line 79 builds a zerolog event and drops it without
`Msg` or `Send`, so nothing is logged and the process does not exit; the main goroutine goes
on to `<-serverCtx.Done()` and stays there, the process still running, however often it is
scheduled. -/
theorem listen_error_goes_on_to_wait (text : String) (n : Nat) :
    run State.init (.listenReturns (some (.other text)) :: .main :: List.replicate n .main) =
      { State.init with main := .waitServerCtx } := by
  have h2 : run State.init [.listenReturns (some (.other text)), .main] =
      { State.init with main := .waitServerCtx } := by
    simp [run, step, stepMain, State.init, dropEvent, isServerClosed]
  have happ : Ev.listenReturns (some (.other text)) :: .main :: List.replicate n .main =
      [.listenReturns (some (.other text)), .main] ++ List.replicate n .main := rfl
  rw [happ, run_append, h2]
  exact main_blocked_on_serverCtx n _ rfl rfl

theorem rank_pos_iff (pc : SigPc) : 1 ≤ pc.rank ↔ pc ≠ .recvSig := by
  cases pc <;> simp [SigPc.rank]

theorem init_onTrack : onTrack State.init := by
  simp [onTrack, State.init, MainPc.waiting]

theorem init_quiet : quiet State.init := by
  simp [quiet, State.init, MainPc.waiting]

/-- C10: in every run of `main` the signal channel is received from at most once, at most one
shutdown context is created and `server.Shutdown` is called at most once, and the three
counts stand for the real actions: the channel has been received from exactly when the
signal goroutine has left `<-sig`, a context has been created exactly when the shutdown
context exists, `Shutdown` has been called exactly when the listener is closed. Without a
signal nothing of the shutdown happens. Once a signal has been delivered and the signal
goroutine has been scheduled four times, in any interleaving with the other goroutines and
with further signals in which the deadline does not pass first (the deadline event stands
for 30 seconds going by, here between line 58 and the call on line 69), each of the three
counts is exactly one, the context exists, the watcher runs and the listener is closed,
whatever happens afterwards. The receive takes the signal out of the channel. The delivery of a
signal changes nothing in the state but the buffer of the channel; once the signal goroutine
has passed `<-sig`, a further signal makes no difference to any later state apart from the
contents of that buffer, which nobody receives from again; and which of the four signals is
delivered makes no difference to any later state, apart from which signal sits in the
buffer. -/
theorem single_shutdown_sequence (evs before steps : List Ev) (σ τ : Signal)
    (sigs : List Signal) (s : State) :
    ((run State.init evs).sigReads ≤ 1 ∧ (run State.init evs).ctxCreated ≤ 1 ∧
      (run State.init evs).shutdownCalls ≤ 1) ∧
    (((run State.init evs).sigReads = 1 ↔ (run State.init evs).sigG ≠ .recvSig) ∧
      ((run State.init evs).ctxCreated = 1 ↔ (run State.init evs).shutdownCtx.isSome = true) ∧
      ((run State.init evs).shutdownCalls = 1 ↔ (run State.init evs).serverClosed = true)) ∧
    ((∀ σ0, Ev.signal σ0 ∉ evs) → quiet (run State.init evs)) ∧
    (Ev.deadline ∉ before ++ steps → 4 ≤ steps.count .sigG →
      (run State.init ((before ++ .signal σ :: steps) ++ evs)).sigReads = 1 ∧
      (run State.init ((before ++ .signal σ :: steps) ++ evs)).ctxCreated = 1 ∧
      (run State.init ((before ++ .signal σ :: steps) ++ evs)).shutdownCalls = 1 ∧
      (run State.init ((before ++ .signal σ :: steps) ++ evs)).shutdownCtx.isSome = true ∧
      (run State.init ((before ++ .signal σ :: steps) ++ evs)).watcher ≠ .notStarted ∧
      (run State.init ((before ++ .signal σ :: steps) ++ evs)).serverClosed = true) ∧
    ((run State.init ((σ :: sigs).map .signal ++ [.sigG, .sigG, .sigG, .sigG] ++ evs)).sigReads
        = 1 ∧
      (run State.init ((σ :: sigs).map .signal ++ [.sigG, .sigG, .sigG, .sigG] ++ evs)).ctxCreated
        = 1 ∧
      (run State.init
        ((σ :: sigs).map .signal ++ [.sigG, .sigG, .sigG, .sigG] ++ evs)).shutdownCalls = 1) ∧
    (s.proc = .running → s.sigG = .recvSig → s.sigBuf = some σ →
      step s .sigG =
        { s with sigBuf := none, sigReads := s.sigReads + 1, sigG := .withTimeout }) ∧
    { step s (.signal σ) with sigBuf := s.sigBuf } = s ∧
    (s.sigG ≠ .recvSig →
      (run (step s (.signal σ)) evs).forgetBuffer = (run s evs).forgetBuffer) ∧
    (run (step s (.signal σ)) evs).forgetSignal = (run (step s (.signal τ)) evs).forgetSignal := by
  refine ⟨?_, ?_, ?_, ?_, ?_, ?_, ?_, ?_, ?_⟩
  · have h := run_countersMatch evs State.init init_countersMatch
    obtain ⟨h1, h2, h3⟩ := h
    rw [h1, h2, h3]
    refine ⟨?_, ?_, ?_⟩ <;> split <;> decide
  · obtain ⟨h1, h2, h3⟩ := run_countersMatch evs State.init init_countersMatch
    obtain ⟨e1, -, e3⟩ := run_effectsMatch evs State.init init_effectsMatch
    rw [h1, h2, h3]
    refine ⟨?_, ?_, ?_⟩
    · rw [← rank_pos_iff]
      by_cases h : 1 ≤ (run State.init evs).sigG.rank <;> simp [h]
    · rw [e1]
      by_cases h : 2 ≤ (run State.init evs).sigG.rank <;> simp [h]
    · rw [e3]
      by_cases h : 4 ≤ (run State.init evs).sigG.rank <;> simp [h]
  · intro hn
    exact run_quiet evs State.init hn init_quiet
  · intro hd hcount
    have hdb : Ev.deadline ∉ before := fun h => hd (List.mem_append_left _ h)
    have hds : Ev.deadline ∉ steps := fun h => hd (List.mem_append_right _ h)
    have hsplit : run State.init ((before ++ .signal σ :: steps) ++ evs) =
        run (run (step (run State.init before) (.signal σ)) steps) evs := by
      rw [run_append, run_append]
      rfl
    have ht1 := run_onTrack before State.init hdb init_onTrack
    have ht2 := step_onTrack _ (.signal σ) (by simp) ht1
    have hp2 := step_signal_pending _ σ ht1
    have hprog := run_progress steps _ hds ht2 hp2
    have hmono := run_rank_mono evs (run (step (run State.init before) (.signal σ)) steps)
    have hrank : 4 ≤ (run State.init ((before ++ .signal σ :: steps) ++ evs)).sigG.rank := by
      rw [hsplit]
      omega
    obtain ⟨h1, h2, h3⟩ := run_countersMatch ((before ++ .signal σ :: steps) ++ evs)
      State.init init_countersMatch
    obtain ⟨e1, e2, e3⟩ := run_effectsMatch ((before ++ .signal σ :: steps) ++ evs)
      State.init init_effectsMatch
    rw [h1, h2, h3]
    refine ⟨?_, ?_, ?_, ?_, ?_, ?_⟩
    · rw [if_pos (by omega)]
    · rw [if_pos (by omega)]
    · rw [if_pos hrank]
    · exact e1.2 (by omega)
    · exact e2.2 (by omega)
    · exact e3.2 hrank
  · have hpre : run State.init ((σ :: sigs).map .signal) =
        { State.init with sigBuf := some σ } := by
      have h1 : step State.init (.signal σ) = { State.init with sigBuf := some σ } := by
        simp [step, State.init]
      simpa [run, h1] using
        run_signals_buffered sigs { State.init with sigBuf := some σ } rfl
    have h4 : (run { State.init with sigBuf := some σ } [.sigG, .sigG, .sigG, .sigG]).sigG =
        .inShutdown := by
      simp [run, step, stepSig, State.init]
    have hrank : 4 ≤ (run State.init
        ((σ :: sigs).map .signal ++ [.sigG, .sigG, .sigG, .sigG] ++ evs)).sigG.rank := by
      rw [run_append, run_append, hpre]
      refine Nat.le_trans ?_ (run_rank_mono evs _)
      rw [h4]
      decide
    obtain ⟨h1, h2, h3⟩ := run_countersMatch
      ((σ :: sigs).map .signal ++ [.sigG, .sigG, .sigG, .sigG] ++ evs) State.init
      init_countersMatch
    rw [h1, h2, h3]
    refine ⟨?_, ?_, ?_⟩
    · rw [if_pos (by omega)]
    · rw [if_pos (by omega)]
    · rw [if_pos hrank]
  · intro hp hg hb
    obtain ⟨proc, main, sigG, watcher, sigBuf, serverCtx, shutdownCtx, closed, r, c, k, lg⟩ := s
    simp only at hp hg hb
    subst hp hg hb
    simp [step, stepSig]
  · by_cases hp : s.proc = .running
    · cases hb : s.sigBuf <;> simp [step, hp, hb]
      all_goals (cases s; simp_all)
    · rw [step_exited _ _ hp]
  · intro hs
    have h := signal_forgetBuffer s σ
    exact run_forgetBuffer evs _ _ (by rw [h.2]; exact hs) h.1
  · exact run_forgetSignal evs _ _ (signal_forgetSignal s σ τ)

/-- Witness for C10: SIGINT arrives while the main goroutine is being scheduled, the signal
goroutine takes its four steps interleaved with the other goroutines and with a second
signal, SIGTERM, and a SIGQUIT follows later. -/
theorem single_shutdown_sequence_witness :
    ((run State.init (([Ev.main, .sigG] ++
          .signal .SIGINT :: [.sigG, .main, .signal .SIGTERM, .sigG, .watcher, .sigG, .sigG])
        ++ [.signal .SIGQUIT, .sigG, .main])).shutdownCalls = 1 ∧
      (run State.init (([Ev.main, .sigG] ++
          .signal .SIGINT :: [.sigG, .main, .signal .SIGTERM, .sigG, .watcher, .sigG, .sigG])
        ++ [.signal .SIGQUIT, .sigG, .main])).serverClosed = true) ∧
      (run (step (run State.init [.signal .SIGINT, .sigG, .sigG]) (.signal .SIGTERM))
          [.signal .SIGQUIT, .sigG, .main]).forgetBuffer =
        (run (run State.init [.signal .SIGINT, .sigG, .sigG])
          [.signal .SIGQUIT, .sigG, .main]).forgetBuffer :=
  ⟨⟨((single_shutdown_sequence [.signal .SIGQUIT, .sigG, .main] [.main, .sigG]
        [.sigG, .main, .signal .SIGTERM, .sigG, .watcher, .sigG, .sigG] .SIGINT .SIGHUP []
        State.init).2.2.2.1 (by decide) (by decide)).2.2.1,
    ((single_shutdown_sequence [.signal .SIGQUIT, .sigG, .main] [.main, .sigG]
        [.sigG, .main, .signal .SIGTERM, .sigG, .watcher, .sigG, .sigG] .SIGINT .SIGHUP []
        State.init).2.2.2.1 (by decide) (by decide)).2.2.2.2.2⟩,
   (single_shutdown_sequence [.signal .SIGQUIT, .sigG, .main] [] [] .SIGTERM .SIGHUP []
      (run State.init [.signal .SIGINT, .sigG, .sigG])).2.2.2.2.2.2.2.1 (by decide)⟩

end MediaRoller
